import Mathlib

/-!
Verification of the walnut-cli DAP server (`src/soldb/dap_server.py`).

This file gives a shallow embedding of the protocol core of
`WalnutDAPServer`: the transport framer (`_send` / `_read`), the outgoing
sequence counter (`_event` / `_response`), the session state, the request
handlers (`launch` entry-step resolution, `setBreakpoints`, `continue_`,
`stackTrace`, `scopes`, `threads`, `evaluate`, `variables`) and the
dispatch loop (`run`), and proves the specified properties about them.

Conventions of the embedding:
* Python byte streams are `List Nat` (one `Nat` per byte); Python `str`
  values are Lean `String` / `List Char`.
* The Python standard-library `json` codec (`json.dumps` / `json.loads`) is
  not part of the repository; it is modelled from the spec ("serialize the
  message to UTF-8 JSON bytes", "parse it as UTF-8 text holding a
  JSON-encoded message") by `dumps` / `loadsChars` below, restricted to
  integer-valued JSON numbers (the server never produces floats).
* External collaborators (EVMDebugger stepping primitives, the breakpoint
  resolver `do_break`, the source-map and variable resolvers, the
  simulation `_do_interactive`) are oracle parameters in the `Ext`
  structure; everything the handlers themselves do is modelled faithfully.
* Python exceptions escaping a handler are modelled as a crash outcome;
  exceptions caught by a handler are modelled where they are caught.
-/

namespace WalnutDAP

/-! ## Python primitives: decimal digits, `int()`, `hex()`, list indexing -/

/-- Decimal digit character for `d < 10` (and a fallback star otherwise). -/
def digitCh (d : Nat) : Char :=
  match d with
  | 0 => '0' | 1 => '1' | 2 => '2' | 3 => '3' | 4 => '4'
  | 5 => '5' | 6 => '6' | 7 => '7' | 8 => '8' | 9 => '9'
  | _ => '*'

/-- Lowercase hexadecimal digit character for `d < 16`. -/
def hexCh (d : Nat) : Char :=
  match d with
  | 0 => '0' | 1 => '1' | 2 => '2' | 3 => '3' | 4 => '4'
  | 5 => '5' | 6 => '6' | 7 => '7' | 8 => '8' | 9 => '9'
  | 10 => 'a' | 11 => 'b' | 12 => 'c' | 13 => 'd' | 14 => 'e' | 15 => 'f'
  | _ => '*'

def chDigit (c : Char) : Bool := '0' ≤ c && c ≤ '9'

def chDigitVal (c : Char) : Nat := c.toNat - '0'.toNat

/-- Decimal digits of `n`, least significant first. -/
def natDigsRev (n : Nat) : List Nat :=
  if n = 0 then [] else n % 10 :: natDigsRev (n / 10)
termination_by n
decreasing_by exact Nat.div_lt_self (by omega) (by omega)

/-- Decimal character rendering of a natural number, as Python `str(n)`. -/
def natChs (n : Nat) : List Char :=
  if n = 0 then ['0'] else ((natDigsRev n).reverse).map digitCh

/-- Decimal character rendering of an integer, as Python `str(i)`. -/
def intChs (i : Int) : List Char :=
  if i < 0 then '-' :: natChs i.natAbs else natChs i.natAbs

/-- Hexadecimal digits of `n`, least significant first. -/
def natHexRev (n : Nat) : List Nat :=
  if n = 0 then [] else n % 16 :: natHexRev (n / 16)
termination_by n
decreasing_by exact Nat.div_lt_self (by omega) (by omega)

def natHexChs (n : Nat) : List Char :=
  if n = 0 then ['0'] else ((natHexRev n).reverse).map hexCh

/-- Python `hex(i)`: a lowercase hexadecimal literal, `-0x…` for negatives. -/
def pyHex (i : Int) : String :=
  if i < 0 then String.mk ('-' :: '0' :: 'x' :: natHexChs i.natAbs)
  else String.mk ('0' :: 'x' :: natHexChs i.natAbs)

/-- Python `str.strip()` whitespace (ASCII part; Python also strips some
    Unicode spaces, which the server never receives in headers). -/
def pySpace (c : Char) : Bool :=
  c = ' ' || c = '\t' || c = '\n' || c = '\r' || c.toNat = 11 || c.toNat = 12

def stripLeft (cs : List Char) : List Char :=
  match cs with
  | [] => []
  | c :: rest => if pySpace c then stripLeft rest else c :: rest

def pyStrip (cs : List Char) : List Char :=
  ((stripLeft cs.reverse).reverse) |> stripLeft

/-- Value of a digit list, most significant first. -/
def digsVal (ds : List Nat) : Nat := ds.foldl (fun a d => 10 * a + d) 0

/-- Core of Python `int(s)` after stripping and sign: a nonempty digit run
    in which single underscores may separate digits (`1_0`), but may not
    lead, trail, or repeat. Returns the digit values, most significant first. -/
def pyIntDigs (cs : List Char) : Option (List Nat) :=
  match cs with
  | [] => none
  | c :: rest =>
    if chDigit c then
      match pyIntDigsAfter rest with
      | some ds => some (chDigitVal c :: ds)
      | none => none
    else none
where
  /-- Continuation after at least one digit has been read. -/
  pyIntDigsAfter : List Char → Option (List Nat)
  | [] => some []
  | '_' :: c :: rest =>
    if chDigit c then
      match pyIntDigsAfter rest with
      | some ds => some (chDigitVal c :: ds)
      | none => none
    else none
  | '_' :: [] => none
  | c :: rest =>
    if chDigit c then
      match pyIntDigsAfter rest with
      | some ds => some (chDigitVal c :: ds)
      | none => none
    else none

/-- Python `int(s)` (base 10): optional surrounding whitespace, an optional
    single sign, then digits with optional single interior underscores.
    `none` models `ValueError`. -/
def pyInt (cs : List Char) : Option Int :=
  let t := pyStrip cs
  match t with
  | '+' :: rest => (pyIntDigs rest).map (fun ds => (digsVal ds : Int))
  | '-' :: rest => (pyIntDigs rest).map (fun ds => -(digsVal ds : Int))
  | _ => (pyIntDigs t).map (fun ds => (digsVal ds : Int))

/-- Python list indexing `l[i]`: negative indices count from the end;
    anything out of range raises `IndexError("list index out of range")`. -/
def pyIndex (l : List Int) (i : Int) : Except String Int :=
  let j : Int := if i < 0 then i + l.length else i
  if h : 0 ≤ j ∧ j < l.length then
    Except.ok (l.get ⟨j.toNat, by omega⟩)
  else Except.error "list index out of range"

/-! ## JSON values and the `json.dumps` model

Modelled from the spec: the Python standard-library `json` codec is outside
the repository; the spec says messages are serialized to "UTF-8 JSON bytes"
with `Content-Length` equal to the body's byte length. `dumps` mirrors
`json.dumps` with its default settings: separators `", "` and `": "`,
`ensure_ascii=True` (every non-ASCII or control character escaped, astral
characters as surrogate pairs), insertion order preserved, and integer
numbers (the server never produces floats). -/

/-- A JSON value as the server exchanges them (numbers are integers). -/
inductive Jv where
  | null
  | bool (b : Bool)
  | num (n : Int)
  | str (s : String)
  | arr (elems : List Jv)
  | obj (fields : List (String × Jv))

/-- Four lowercase hex digits of `n < 0x10000`, most significant first. -/
def hex4 (n : Nat) : List Char :=
  [hexCh (n / 4096 % 16), hexCh (n / 256 % 16), hexCh (n / 16 % 16), hexCh (n % 16)]

/-- One character as `json.dumps` (with `ensure_ascii=True`) emits it: the
    two-character short escapes, `\u00xx` for other controls, the character
    itself when printable ASCII, `\uxxxx` for other BMP characters, and a
    surrogate pair for astral characters. -/
def escCh (c : Char) : List Char :=
  if c = '"' then ['\\', '"']
  else if c = '\\' then ['\\', '\\']
  else if c.toNat = 8 then ['\\', 'b']
  else if c.toNat = 12 then ['\\', 'f']
  else if c = '\n' then ['\\', 'n']
  else if c = '\r' then ['\\', 'r']
  else if c = '\t' then ['\\', 't']
  else if c.toNat < 0x20 then '\\' :: 'u' :: hex4 c.toNat
  else if c.toNat ≤ 0x7E then [c]
  else if c.toNat < 0x10000 then '\\' :: 'u' :: hex4 c.toNat
  else
    '\\' :: 'u' :: hex4 (0xD800 + (c.toNat - 0x10000) / 0x400) ++
      ('\\' :: 'u' :: hex4 (0xDC00 + (c.toNat - 0x10000) % 0x400))

/-- A JSON string literal: quote, escaped characters, quote. -/
def dumpStr (s : String) : List Char :=
  '"' :: (s.data.flatMap escCh ++ ['"'])

mutual

/-- Python `json.dumps` with default settings, to characters (the body bytes
    are the UTF-8 encoding of this list, which is pure ASCII). -/
def dumps : Jv → List Char
  | .null => "null".data
  | .bool true => "true".data
  | .bool false => "false".data
  | .num n => intChs n
  | .str s => dumpStr s
  | .arr [] => ['[', ']']
  | .arr (v :: vs) => '[' :: (dumps v ++ dumpsElems vs ++ [']'])
  | .obj [] => ['{', '}']
  | .obj ((k, v) :: ms) =>
    '{' :: (dumpStr k ++ ':' :: ' ' :: (dumps v ++ dumpsFields ms ++ ['}']))

/-- Trailing elements of a nonempty array: `", e"` for each. -/
def dumpsElems : List Jv → List Char
  | [] => []
  | v :: vs => ',' :: ' ' :: (dumps v ++ dumpsElems vs)

/-- Trailing members of a nonempty object: `", "k": v"` for each. -/
def dumpsFields : List (String × Jv) → List Char
  | [] => []
  | (k, v) :: ms => ',' :: ' ' :: (dumpStr k ++ ':' :: ' ' :: (dumps v ++ dumpsFields ms))

end

/-! ## The `json.loads` model

A fueled recursive-descent parser mirroring `json.loads` on the fragment the
server exchanges (integer numbers; a lone UTF-16 surrogate escape, which
Python would keep but a Lean `Char` cannot hold, is rejected — `dumps` never
produces one). `none` models `json.JSONDecodeError`. -/

def jWs (c : Char) : Bool := c = ' ' || c = '\t' || c = '\n' || c = '\r'

def skipWs : List Char → List Char
  | [] => []
  | c :: cs => if jWs c then skipWs cs else c :: cs

def hexDigVal (c : Char) : Option Nat :=
  let n := c.toNat
  if 48 ≤ n && n ≤ 57 then some (n - 48)
  else if 97 ≤ n && n ≤ 102 then some (n - 87)
  else if 65 ≤ n && n ≤ 70 then some (n - 55)
  else none

def parseHex4 (a b c d : Char) : Option Nat :=
  match hexDigVal a, hexDigVal b, hexDigVal c, hexDigVal d with
  | some va, some vb, some vc, some vd => some (((va * 16 + vb) * 16 + vc) * 16 + vd)
  | _, _, _, _ => none

/-- Short escapes accepted after a backslash. -/
def escDecode : Char → Option Char
  | '"' => some '"'
  | '\\' => some '\\'
  | '/' => some '/'
  | 'b' => some (Char.ofNat 8)
  | 'f' => some (Char.ofNat 12)
  | 'n' => some '\n'
  | 'r' => some '\r'
  | 't' => some '\t'
  | _ => none

/-- Parse a string body after the opening quote, decoding escapes (surrogate
    pairs combined), up to and past the closing quote. -/
def parseStrBody : List Char → Option (List Char × List Char)
  | [] => none
  | '"' :: rest => some ([], rest)
  | '\\' :: 'u' :: a :: b :: c :: d :: rest =>
    (match parseHex4 a b c d with
     | none => none
     | some n =>
       if 0xD800 ≤ n ∧ n ≤ 0xDBFF then
         match rest with
         | '\\' :: 'u' :: a2 :: b2 :: c2 :: d2 :: rest2 =>
           (match parseHex4 a2 b2 c2 d2 with
            | some m =>
              if 0xDC00 ≤ m ∧ m ≤ 0xDFFF then
                match parseStrBody rest2 with
                | some (s, r) =>
                  some (Char.ofNat (0x10000 + (n - 0xD800) * 0x400 + (m - 0xDC00)) :: s, r)
                | none => none
              else none
            | none => none)
         | _ => none
       else if 0xDC00 ≤ n ∧ n ≤ 0xDFFF then none
       else
         match parseStrBody rest with
         | some (s, r) => some (Char.ofNat n :: s, r)
         | none => none)
  | '\\' :: e :: rest =>
    (match escDecode e with
     | some ch =>
       match parseStrBody rest with
       | some (s, r) => some (ch :: s, r)
       | none => none
     | none => none)
  | c :: rest =>
    if c.toNat < 0x20 then none
    else
      match parseStrBody rest with
      | some (s, r) => some (c :: s, r)
      | none => none

/-- Longest digit prefix and the remainder. -/
def takeDigs : List Char → List Char × List Char
  | [] => ([], [])
  | c :: cs =>
    if chDigit c then
      let (ds, r) := takeDigs cs
      (c :: ds, r)
    else ([], c :: cs)

/-- Parse an integer JSON number (optional minus then a digit run). -/
def parseNum (cs : List Char) : Option (Jv × List Char) :=
  match cs with
  | '-' :: rest =>
    let (ds, r) := takeDigs rest
    if ds.isEmpty then none
    else some (.num (-(digsVal (ds.map chDigitVal) : Int)), r)
  | _ =>
    let (ds, r) := takeDigs cs
    if ds.isEmpty then none
    else some (.num ((digsVal (ds.map chDigitVal) : Int)), r)

mutual

/-- Parse one JSON value, whitespace-tolerant, fuel decreasing at every
    recursive step (one unit of fuel per construct suffices). -/
def parseVal : Nat → List Char → Option (Jv × List Char)
  | 0, _ => none
  | f + 1, cs =>
    match skipWs cs with
    | 'n' :: 'u' :: 'l' :: 'l' :: r => some (.null, r)
    | 't' :: 'r' :: 'u' :: 'e' :: r => some (.bool true, r)
    | 'f' :: 'a' :: 'l' :: 's' :: 'e' :: r => some (.bool false, r)
    | '"' :: r =>
      (match parseStrBody r with
       | some (s, r2) => some (.str (String.mk s), r2)
       | none => none)
    | '[' :: r =>
      (match skipWs r with
       | ']' :: r2 => some (.arr [], r2)
       | _ =>
         match parseVal f r with
         | some (v, r2) =>
           (match parseElems f r2 with
            | some (vs, r3) => some (.arr (v :: vs), r3)
            | none => none)
         | none => none)
    | '{' :: r =>
      (match skipWs r with
       | '}' :: r2 => some (.obj [], r2)
       | '"' :: r2 =>
         (match parseStrBody r2 with
          | some (k, r3) =>
            (match skipWs r3 with
             | ':' :: r4 =>
               (match parseVal f r4 with
                | some (v, r5) =>
                  (match parseFields f r5 with
                   | some (ms, r6) => some (.obj ((String.mk k, v) :: ms), r6)
                   | none => none)
                | none => none)
             | _ => none)
          | none => none)
       | _ => none)
    | c :: r => if c = '-' || chDigit c then parseNum (c :: r) else none
    | [] => none

/-- Parse the continuation of an array after one element: either the closing
    bracket or a comma and further elements. -/
def parseElems : Nat → List Char → Option (List Jv × List Char)
  | 0, _ => none
  | f + 1, cs =>
    match skipWs cs with
    | ']' :: r => some ([], r)
    | ',' :: r =>
      (match parseVal f r with
       | some (v, r2) =>
         (match parseElems f r2 with
          | some (vs, r3) => some (v :: vs, r3)
          | none => none)
       | none => none)
    | _ => none

/-- Parse the continuation of an object after one member. -/
def parseFields : Nat → List Char → Option (List (String × Jv) × List Char)
  | 0, _ => none
  | f + 1, cs =>
    match skipWs cs with
    | '}' :: r => some ([], r)
    | ',' :: r =>
      (match skipWs r with
       | '"' :: r2 =>
         (match parseStrBody r2 with
          | some (k, r3) =>
            (match skipWs r3 with
             | ':' :: r4 =>
               (match parseVal f r4 with
                | some (v, r5) =>
                  (match parseFields f r5 with
                   | some (ms, r6) => some ((String.mk k, v) :: ms, r6)
                   | none => none)
                | none => none)
             | _ => none)
          | none => none)
       | _ => none)
    | _ => none

end

/-- Python `json.loads` on a decoded text: parse one value and insist nothing
    but whitespace follows. -/
def loadsChars (cs : List Char) : Option Jv :=
  match parseVal (cs.length + 1) cs with
  | some (v, r) => if skipWs r = [] then some v else none
  | none => none

/-! ## Codec round-trip, part 1: numbers -/

theorem digitCh_spec (d : Nat) (h : d < 10) :
    chDigit (digitCh d) = true ∧ chDigitVal (digitCh d) = d := by
  revert h
  revert d
  decide

theorem natDigsRev_lt (n : Nat) : ∀ d ∈ natDigsRev n, d < 10 := by
  induction n using Nat.strongRecOn with
  | _ n ih =>
    rw [natDigsRev]
    split
    · intro d hd; simp at hd
    · intro d hd
      rcases List.mem_cons.mp hd with h | h
      · omega
      · exact ih (n / 10) (Nat.div_lt_self (by omega) (by omega)) d h

theorem digsVal_concat (ds : List Nat) (d : Nat) :
    digsVal (ds ++ [d]) = 10 * digsVal ds + d := by
  simp [digsVal, List.foldl_append]

theorem digsVal_natDigsRev (n : Nat) : digsVal (natDigsRev n).reverse = n := by
  induction n using Nat.strongRecOn with
  | _ n ih =>
    rw [natDigsRev]
    split
    · simp [digsVal]; omega
    · rw [List.reverse_cons, digsVal_concat,
        ih (n / 10) (Nat.div_lt_self (by omega) (by omega))]
      omega

theorem natChs_ne_nil (n : Nat) : natChs n ≠ [] := by
  rw [natChs]
  split
  · simp
  · rename_i h
    have : natDigsRev n ≠ [] := by rw [natDigsRev]; simp [h]
    simp [this]

theorem natChs_all_digit (n : Nat) : ∀ c ∈ natChs n, chDigit c = true := by
  rw [natChs]
  split
  · intro c hc; simp at hc; subst hc; decide
  · intro c hc
    rcases List.mem_map.mp hc with ⟨d, hd, rfl⟩
    exact (digitCh_spec d (natDigsRev_lt n d (List.mem_reverse.mp hd))).1

theorem natChs_val (n : Nat) : digsVal ((natChs n).map chDigitVal) = n := by
  rw [natChs]
  split
  · rename_i h; subst h; decide
  · rw [List.map_map]
    have he : (natDigsRev n).reverse.map (chDigitVal ∘ digitCh) = (natDigsRev n).reverse := by
      conv_rhs => rw [← List.map_id ((natDigsRev n).reverse)]
      apply List.map_congr_left
      intro d hd
      exact (digitCh_spec d (natDigsRev_lt n d (List.mem_reverse.mp hd))).2
    rw [he, digsVal_natDigsRev]

/-- A remainder that cannot extend a digit run: empty or headed by a
    non-digit. Every JSON delimiter the encoder emits after a number
    (comma, closing bracket or brace, end of input) qualifies. -/
def numEnd : List Char → Bool
  | [] => true
  | c :: _ => !(chDigit c)

theorem takeDigs_stop {cs : List Char} (h : numEnd cs = true) : takeDigs cs = ([], cs) := by
  match cs with
  | [] => rfl
  | c :: t =>
    simp only [numEnd, Bool.not_eq_true'] at h
    simp [takeDigs, h]

theorem takeDigs_run (ds : List Char) (hds : ∀ c ∈ ds, chDigit c = true)
    (rest : List Char) (hrest : numEnd rest = true) :
    takeDigs (ds ++ rest) = (ds, rest) := by
  induction ds with
  | nil => simpa using takeDigs_stop hrest
  | cons c t ih =>
    have hc := hds c (by simp)
    have ht := ih (fun x hx => hds x (by simp [hx]))
    simp [takeDigs, hc, ht]

/-- A digit character is no JSON whitespace, no structural character, and no
    sign — everything the parser's dispatch might otherwise steer on. -/
theorem chDigit_ne {c : Char} (h : chDigit c = true) :
    jWs c = false ∧ c ≠ 'n' ∧ c ≠ 't' ∧ c ≠ 'f' ∧ c ≠ '"' ∧ c ≠ '[' ∧ c ≠ '{' ∧
      c ≠ ']' ∧ c ≠ '}' ∧ c ≠ ',' ∧ c ≠ '-' := by
  refine ⟨?_, ?_, ?_, ?_, ?_, ?_, ?_, ?_, ?_, ?_, ?_⟩
  · by_contra hw
    simp only [Bool.not_eq_false] at hw
    simp only [jWs, Bool.or_eq_true, decide_eq_true_eq] at hw
    rcases hw with ((h1 | h1) | h1) | h1 <;> (subst h1; exact absurd h (by decide))
  all_goals (intro h1; subst h1; exact absurd h (by decide))

theorem parseNum_intChs (i : Int) (rest : List Char) (hr : numEnd rest = true) :
    parseNum (intChs i ++ rest) = some (.num i, rest) := by
  rw [intChs]
  by_cases hi : i < 0
  · simp only [if_pos hi, List.cons_append]
    simp only [parseNum]
    rw [takeDigs_run _ (natChs_all_digit _) _ hr]
    have hne : (natChs i.natAbs).isEmpty = false := by
      simp [List.isEmpty_iff, natChs_ne_nil]
    simp only [hne, Bool.false_eq_true, if_false]
    rw [natChs_val]
    have hcast : -((i.natAbs : Int)) = i := by omega
    rw [hcast]
  · simp only [if_neg hi]
    have hnn := natChs_ne_nil i.natAbs
    match hn : natChs i.natAbs with
    | [] => exact absurd hn hnn
    | c0 :: t0 =>
      have hc0 : chDigit c0 = true := natChs_all_digit i.natAbs c0 (by rw [hn]; simp)
      have hm := chDigit_ne hc0
      simp only [List.cons_append, parseNum]
      have htd : takeDigs (c0 :: (t0 ++ rest)) = (c0 :: t0, rest) := by
        have := takeDigs_run (natChs i.natAbs) (natChs_all_digit _) rest hr
        rwa [hn, List.cons_append] at this
      have hv : digsVal ((c0 :: t0).map chDigitVal) = i.natAbs := by
        have := natChs_val i.natAbs
        rwa [hn] at this
      simp [htd]
      split
      · rename_i rest1 heq
        injection heq with h1 h2
        exact absurd h1 hm.2.2.2.2.2.2.2.2.2.2
      · have hv' : digsVal (chDigitVal c0 :: List.map chDigitVal t0) = i.natAbs := by
          simpa using hv
        simp only [Option.some.injEq, Prod.mk.injEq, Jv.num.injEq]
        refine ⟨?_, trivial⟩
        rw [hv']
        omega

/-! ## Codec round-trip, part 2: strings -/

theorem hexCh_spec (d : Nat) (h : d < 16) : hexDigVal (hexCh d) = some d := by
  revert h
  revert d
  decide

theorem parseHex4_hex4 (n : Nat) (h : n < 65536) :
    parseHex4 (hexCh (n / 4096 % 16)) (hexCh (n / 256 % 16)) (hexCh (n / 16 % 16))
      (hexCh (n % 16)) = some n := by
  have h16 : ∀ k : Nat, k % 16 < 16 := fun k => Nat.mod_lt _ (by omega)
  simp only [parseHex4, hexCh_spec _ (h16 _)]
  congr 1
  omega

/-- The range facts every `Char` satisfies (no surrogates, below 0x110000). -/
theorem char_range (c : Char) : c.toNat < 0xD800 ∨ (0xDFFF < c.toNat ∧ c.toNat < 0x110000) :=
  c.valid

/-- Parsing one escaped character undoes `escCh`, whatever follows. -/
theorem parseStrBody_escCh (c : Char) (rest : List Char) :
    parseStrBody (escCh c ++ rest) =
      match parseStrBody rest with
      | some (s, r) => some (c :: s, r)
      | none => none := by
  have hval := char_range c
  rw [escCh]
  by_cases h1 : c = '"'
  · subst h1; rfl
  rw [if_neg h1]
  by_cases h2 : c = '\\'
  · subst h2; rfl
  rw [if_neg h2]
  by_cases h3 : c.toNat = 8
  · rw [if_pos h3]
    have hc : c = Char.ofNat 8 := by rw [← h3, Char.ofNat_toNat]
    rw [hc]; rfl
  rw [if_neg h3]
  by_cases h4 : c.toNat = 12
  · rw [if_pos h4]
    have hc : c = Char.ofNat 12 := by rw [← h4, Char.ofNat_toNat]
    rw [hc]; rfl
  rw [if_neg h4]
  by_cases h5 : c = '\n'
  · subst h5; rfl
  rw [if_neg h5]
  by_cases h6 : c = '\r'
  · subst h6; rfl
  rw [if_neg h6]
  by_cases h7 : c = '\t'
  · subst h7; rfl
  rw [if_neg h7]
  by_cases h8 : c.toNat < 0x20
  · rw [if_pos h8]
    simp only [hex4, List.cons_append]
    rw [parseStrBody, parseHex4_hex4 c.toNat (by omega)]
    simp only []
    rw [if_neg (by omega), if_neg (by omega), Char.ofNat_toNat]
    rfl
  rw [if_neg h8]
  by_cases h9 : c.toNat ≤ 0x7E
  · rw [if_pos h9]
    simp only [List.singleton_append]
    rw [parseStrBody.eq_def]
    simp [h1, h2, h8]
  rw [if_neg h9]
  by_cases h10 : c.toNat < 0x10000
  · rw [if_pos h10]
    simp only [hex4, List.cons_append]
    rw [parseStrBody, parseHex4_hex4 c.toNat (by omega)]
    simp only []
    rw [if_neg (by omega), if_neg (by omega), Char.ofNat_toNat]
    rfl
  rw [if_neg h10]
  simp only [hex4, List.cons_append, List.append_assoc, List.nil_append]
  rw [parseStrBody, parseHex4_hex4 _ (by omega)]
  simp only []
  rw [if_pos (by omega)]
  rw [parseHex4_hex4 _ (by omega)]
  simp only []
  rw [if_pos (by omega)]
  have hcomb : 0x10000 + (0xD800 + (c.toNat - 0x10000) / 0x400 - 0xD800) * 0x400 +
      (0xDC00 + (c.toNat - 0x10000) % 0x400 - 0xDC00) = c.toNat := by omega
  rw [hcomb, Char.ofNat_toNat]

/-- Parsing an escaped run stops exactly at the closing quote. -/
theorem parseStrBody_flat (s : List Char) (rest : List Char) :
    parseStrBody (s.flatMap escCh ++ '"' :: rest) = some (s, rest) := by
  induction s with
  | nil => rfl
  | cons c t ih =>
    rw [List.flatMap_cons, List.append_assoc, parseStrBody_escCh, ih]

/-- The string codec round-trip on a rendered string literal. -/
theorem parseStrBody_dumpStr (s : String) (rest : List Char) :
    parseStrBody (s.data.flatMap escCh ++ ('"' :: rest)) = some (s.data, rest) :=
  parseStrBody_flat s.data rest

/-! ## Codec round-trip, part 3: whole values -/

theorem skipWs_not (c : Char) (t : List Char) (h : jWs c = false) :
    skipWs (c :: t) = c :: t := by
  rw [skipWs]; simp [h]

theorem skipWs_space (cs : List Char) : skipWs (' ' :: cs) = skipWs cs := by
  rw [skipWs]; simp [jWs]

theorem parseVal_ws (f : Nat) (cs : List Char) :
    parseVal f (' ' :: cs) = parseVal f cs := by
  cases f with
  | zero => rfl
  | succ f => simp only [parseVal, skipWs_space]

/-- A rendered value begins with a character that is no whitespace and closes
    no structure — the dispatch of the surrounding parser cannot misfire. -/
theorem dumps_head (v : Jv) :
    ∃ c t, dumps v = c :: t ∧ jWs c = false ∧ c ≠ ']' ∧ c ≠ '}' := by
  have hemit : ∀ c : Char, c ∈ ['n', 't', 'f', '"', '[', '{'] →
      jWs c = false ∧ c ≠ ']' ∧ c ≠ '}' := by decide
  cases v with
  | null => exact ⟨'n', _, rfl, hemit 'n' (by decide)⟩
  | bool b =>
    cases b with
    | true => exact ⟨'t', _, rfl, hemit 't' (by decide)⟩
    | false => exact ⟨'f', _, rfl, hemit 'f' (by decide)⟩
  | str s => exact ⟨'"', _, rfl, hemit '"' (by decide)⟩
  | arr es =>
    cases es with
    | nil => exact ⟨'[', _, rfl, hemit '[' (by decide)⟩
    | cons v vs => exact ⟨'[', _, rfl, hemit '[' (by decide)⟩
  | obj ms =>
    match ms with
    | [] => exact ⟨'{', _, rfl, hemit '{' (by decide)⟩
    | (k, v) :: ms => exact ⟨'{', _, rfl, hemit '{' (by decide)⟩
  | num i =>
    by_cases hi : i < 0
    · refine ⟨'-', natChs i.natAbs, ?_, by decide, by decide, by decide⟩
      rw [dumps, intChs, if_pos hi]
    · have hnn := natChs_ne_nil i.natAbs
      match hn : natChs i.natAbs with
      | [] => exact absurd hn hnn
      | c0 :: t0 =>
        have hc0 : chDigit c0 = true := natChs_all_digit i.natAbs c0 (by rw [hn]; simp)
        have hm := chDigit_ne hc0
        refine ⟨c0, t0, ?_, hm.1, hm.2.2.2.2.2.2.2.1, hm.2.2.2.2.2.2.2.2.1⟩
        rw [dumps, intChs, if_neg hi, hn]

theorem numEnd_dumpsElems (vs : List Jv) (rest : List Char) :
    numEnd (dumpsElems vs ++ ']' :: rest) = true := by
  cases vs with
  | nil => rfl
  | cons v vs => rfl

theorem numEnd_dumpsFields (ms : List (String × Jv)) (rest : List Char) :
    numEnd (dumpsFields ms ++ '}' :: rest) = true := by
  match ms with
  | [] => rfl
  | (k, v) :: ms => rfl

/-- Parsing a rendered integer also inverts inside `parseVal`. -/
theorem parseVal_intChs (i : Int) (f : Nat) (rest : List Char) (hr : numEnd rest = true) :
    parseVal (f + 1) (intChs i ++ rest) = some (.num i, rest) := by
  by_cases hi : i < 0
  · have hd : intChs i ++ rest = '-' :: (natChs i.natAbs ++ rest) := by
      rw [intChs, if_pos hi]; simp
    rw [hd, parseVal, skipWs_not '-' _ (by decide)]
    have hpn : parseNum ('-' :: (natChs i.natAbs ++ rest)) = some (.num i, rest) := by
      rw [← hd]; exact parseNum_intChs i rest hr
    split
    · rename_i r heq; injection heq with hh; exact absurd hh (by decide)
    · rename_i r heq; injection heq with hh; exact absurd hh (by decide)
    · rename_i r heq; injection heq with hh; exact absurd hh (by decide)
    · rename_i r heq; injection heq with hh; exact absurd hh (by decide)
    · rename_i r heq; injection heq with hh; exact absurd hh (by decide)
    · rename_i r heq; injection heq with hh; exact absurd hh (by decide)
    · rename_i c r heq
      injection heq with hh1 hh2
      subst hh1; subst hh2
      rw [if_pos (by decide), hpn]
    · rename_i heq; exact absurd heq (by simp)
  · have hnn := natChs_ne_nil i.natAbs
    match hn : natChs i.natAbs with
    | [] => exact absurd hn hnn
    | c0 :: t0 =>
      have hc0 : chDigit c0 = true := natChs_all_digit i.natAbs c0 (by rw [hn]; simp)
      obtain ⟨hws, e1, e2, e3, e4, e5, e6, e7, e8, e9, e10⟩ := chDigit_ne hc0
      have hd : intChs i ++ rest = c0 :: (t0 ++ rest) := by
        rw [intChs, if_neg hi, hn]; simp
      rw [hd, parseVal, skipWs_not c0 _ hws]
      have hpn : parseNum (c0 :: (t0 ++ rest)) = some (.num i, rest) := by
        rw [← hd]; exact parseNum_intChs i rest hr
      split
      · rename_i r heq; injection heq with hh; exact absurd hh e1
      · rename_i r heq; injection heq with hh; exact absurd hh e2
      · rename_i r heq; injection heq with hh; exact absurd hh e3
      · rename_i r heq; injection heq with hh; exact absurd hh e4
      · rename_i r heq; injection heq with hh; exact absurd hh e5
      · rename_i r heq; injection heq with hh; exact absurd hh e6
      · rename_i c r heq
        injection heq with hh1 hh2
        subst hh1; subst hh2
        rw [if_pos (by simp [hc0]), hpn]
      · rename_i heq; exact absurd heq (by simp)

/-! Definitional one-step unfoldings of the parser at a known head character. -/

theorem parseVal_null_step (f : Nat) (r : List Char) :
    parseVal (f + 1) ('n' :: 'u' :: 'l' :: 'l' :: r) = some (.null, r) := rfl

theorem parseVal_true_step (f : Nat) (r : List Char) :
    parseVal (f + 1) ('t' :: 'r' :: 'u' :: 'e' :: r) = some (.bool true, r) := rfl

theorem parseVal_false_step (f : Nat) (r : List Char) :
    parseVal (f + 1) ('f' :: 'a' :: 'l' :: 's' :: 'e' :: r) = some (.bool false, r) := rfl

theorem parseVal_str_step (f : Nat) (r : List Char) :
    parseVal (f + 1) ('"' :: r) =
      match parseStrBody r with
      | some (s, r2) => some (.str (String.mk s), r2)
      | none => none := rfl

theorem parseVal_arr_step (f : Nat) (r : List Char) :
    parseVal (f + 1) ('[' :: r) =
      (match skipWs r with
       | ']' :: r2 => some (.arr [], r2)
       | _ =>
         match parseVal f r with
         | some (v, r2) =>
           (match parseElems f r2 with
            | some (vs, r3) => some (.arr (v :: vs), r3)
            | none => none)
         | none => none) := rfl

theorem parseVal_obj_step (f : Nat) (r : List Char) :
    parseVal (f + 1) ('{' :: r) =
      (match skipWs r with
       | '}' :: r2 => some (.obj [], r2)
       | '"' :: r2 =>
         (match parseStrBody r2 with
          | some (k, r3) =>
            (match skipWs r3 with
             | ':' :: r4 =>
               (match parseVal f r4 with
                | some (v, r5) =>
                  (match parseFields f r5 with
                   | some (ms, r6) => some (.obj ((String.mk k, v) :: ms), r6)
                   | none => none)
                | none => none)
             | _ => none)
          | none => none)
       | _ => none) := rfl

theorem parseVal_arrEmpty_step (f : Nat) (r : List Char) :
    parseVal (f + 1) ('[' :: ']' :: r) = some (.arr [], r) := rfl

theorem parseVal_objEmpty_step (f : Nat) (r : List Char) :
    parseVal (f + 1) ('{' :: '}' :: r) = some (.obj [], r) := rfl

/-- Definitional unfolding of the parser on an object whose first key's
    opening quote is already visible. -/
theorem parseVal_objKey_step (f : Nat) (w : List Char) :
    parseVal (f + 1) ('{' :: '"' :: w) =
      (match parseStrBody w with
       | some (k, r3) =>
         (match skipWs r3 with
          | ':' :: r4 =>
            (match parseVal f r4 with
             | some (v, r5) =>
               (match parseFields f r5 with
                | some (ms, r6) => some (.obj ((String.mk k, v) :: ms), r6)
                | none => none)
             | none => none)
          | _ => none)
       | none => none) := rfl

theorem parseElems_close_step (f : Nat) (r : List Char) :
    parseElems (f + 1) (']' :: r) = some ([], r) := rfl

theorem parseElems_comma_step (f : Nat) (r : List Char) :
    parseElems (f + 1) (',' :: r) =
      (match parseVal f r with
       | some (v, r2) =>
         (match parseElems f r2 with
          | some (vs, r3) => some (v :: vs, r3)
          | none => none)
       | none => none) := rfl

theorem parseFields_close_step (f : Nat) (r : List Char) :
    parseFields (f + 1) ('}' :: r) = some ([], r) := rfl

theorem parseFields_comma_step (f : Nat) (r : List Char) :
    parseFields (f + 1) (',' :: r) =
      (match skipWs r with
       | '"' :: r2 =>
         (match parseStrBody r2 with
          | some (k, r3) =>
            (match skipWs r3 with
             | ':' :: r4 =>
               (match parseVal f r4 with
                | some (v, r5) =>
                  (match parseFields f r5 with
                   | some (ms, r6) => some ((String.mk k, v) :: ms, r6)
                   | none => none)
                | none => none)
             | _ => none)
          | none => none)
       | _ => none) := rfl

/-- Definitional unfolding of the member parser at a rendered separator. -/
theorem parseFields_commaKey_step (f : Nat) (w : List Char) :
    parseFields (f + 1) (',' :: ' ' :: '"' :: w) =
      (match parseStrBody w with
       | some (k, r3) =>
         (match skipWs r3 with
          | ':' :: r4 =>
            (match parseVal f r4 with
             | some (v, r5) =>
               (match parseFields f r5 with
                | some (ms, r6) => some ((String.mk k, v) :: ms, r6)
                | none => none)
             | none => none)
          | _ => none)
       | none => none) := rfl

theorem len_dumps_arr_cons (v : Jv) (vs : List Jv) :
    (dumps (.arr (v :: vs))).length = (dumps v).length + (dumpsElems vs).length + 2 := by
  rw [dumps]; simp [List.length_append]; omega

theorem len_dumpsElems_cons (v : Jv) (vs : List Jv) :
    (dumpsElems (v :: vs)).length = (dumps v).length + (dumpsElems vs).length + 2 := by
  rw [dumpsElems]; simp [List.length_append]

theorem len_dumps_obj_cons (k : String) (v : Jv) (ms : List (String × Jv)) :
    (dumps (.obj ((k, v) :: ms))).length
      = (dumpStr k).length + (dumps v).length + (dumpsFields ms).length + 4 := by
  rw [dumps]; simp [List.length_append]; omega

theorem len_dumpsFields_cons (k : String) (v : Jv) (ms : List (String × Jv)) :
    (dumpsFields ((k, v) :: ms)).length
      = (dumpStr k).length + (dumps v).length + (dumpsFields ms).length + 4 := by
  rw [dumpsFields]; simp [List.length_append]; omega

mutual

/-- The codec round-trip for one value: parsing a rendered value with enough
    fuel consumes exactly its characters, whatever delimiter-safe remainder
    follows. -/
theorem rtVal : ∀ (v : Jv) (f : Nat) (rest : List Char),
    (dumps v).length < f → numEnd rest = true →
    parseVal f (dumps v ++ rest) = some (v, rest)
  | .null, f, rest, hf, _ => by
    cases f with
    | zero => exact absurd hf (by decide)
    | succ f => exact parseVal_null_step f rest
  | .bool true, f, rest, hf, _ => by
    cases f with
    | zero => exact absurd hf (by decide)
    | succ f => exact parseVal_true_step f rest
  | .bool false, f, rest, hf, _ => by
    cases f with
    | zero => exact absurd hf (by decide)
    | succ f => exact parseVal_false_step f rest
  | .num i, f, rest, hf, hr => by
    cases f with
    | zero => exact absurd hf (by omega)
    | succ f => exact parseVal_intChs i f rest hr
  | .str s, f, rest, hf, _ => by
    cases f with
    | zero => exact absurd hf (by omega)
    | succ f =>
      have hd : dumps (.str s) ++ rest
          = '"' :: (s.data.flatMap escCh ++ ('"' :: rest)) := by
        rw [dumps, dumpStr]; simp
      rw [hd, parseVal_str_step, parseStrBody_flat]
  | .arr [], f, rest, hf, _ => by
    cases f with
    | zero => exact absurd hf (by decide)
    | succ f =>
      have hd : dumps (.arr []) ++ rest = '[' :: (']' :: rest) := by rw [dumps]; rfl
      rw [hd, parseVal_arrEmpty_step]
  | .arr (v :: vs), f, rest, hf, _ => by
    cases f with
    | zero => exact absurd hf (by omega)
    | succ f =>
      have hd : dumps (.arr (v :: vs)) ++ rest
          = '[' :: (dumps v ++ (dumpsElems vs ++ ']' :: rest)) := by
        rw [dumps]; simp
      have hlen := len_dumps_arr_cons v vs
      have h1 : (dumps v).length < f := by omega
      have h2 : (dumpsElems vs).length < f := by omega
      rw [hd, parseVal_arr_step]
      obtain ⟨c, t, hdv, hcws, hcb, _⟩ := dumps_head v
      rw [hdv, List.cons_append, skipWs_not c _ hcws]
      split
      · rename_i r2 heq; injection heq with hh; exact absurd hh hcb
      · rw [← List.cons_append, ← hdv,
          rtVal v f (dumpsElems vs ++ ']' :: rest) h1 (numEnd_dumpsElems vs rest)]
        simp only []
        rw [rtElems vs f rest h2]
  | .obj [], f, rest, hf, _ => by
    cases f with
    | zero => exact absurd hf (by decide)
    | succ f =>
      have hd : dumps (.obj []) ++ rest = '{' :: ('}' :: rest) := by rw [dumps]; rfl
      rw [hd, parseVal_objEmpty_step]
  | .obj ((k, v) :: ms), f, rest, hf, _ => by
    cases f with
    | zero => exact absurd hf (by omega)
    | succ f =>
      have hd : dumps (.obj ((k, v) :: ms)) ++ rest
          = '{' :: ('"' :: (k.data.flatMap escCh ++
              ('"' :: (':' :: ' ' :: (dumps v ++ (dumpsFields ms ++ '}' :: rest)))))) := by
        rw [dumps, dumpStr]; simp
      have hlen := len_dumps_obj_cons k v ms
      have h1 : (dumps v).length < f := by omega
      have h2 : (dumpsFields ms).length < f := by omega
      rw [hd, parseVal_objKey_step, parseStrBody_flat]
      simp only []
      rw [skipWs_not ':' _ (by decide)]
      split
      · rename_i r4 heq
        injection heq with hh1 hh2
        subst hh2
        rw [parseVal_ws, rtVal v f (dumpsFields ms ++ '}' :: rest) h1 (numEnd_dumpsFields ms rest)]
        simp only []
        rw [rtFields ms f rest h2]
      · rename_i hne; exact absurd rfl (hne _)

/-- The round-trip for the rendered tail of a nonempty array. -/
theorem rtElems : ∀ (vs : List Jv) (f : Nat) (rest : List Char),
    (dumpsElems vs).length < f →
    parseElems f (dumpsElems vs ++ ']' :: rest) = some (vs, rest)
  | [], f, rest, hf => by
    cases f with
    | zero => exact absurd hf (by omega)
    | succ f => exact parseElems_close_step f rest
  | v :: vs, f, rest, hf => by
    cases f with
    | zero => exact absurd hf (by omega)
    | succ f =>
      have hlen := len_dumpsElems_cons v vs
      have h1 : (dumps v).length < f := by omega
      have h2 : (dumpsElems vs).length < f := by omega
      have hd : dumpsElems (v :: vs) ++ ']' :: rest
          = ',' :: (' ' :: (dumps v ++ (dumpsElems vs ++ ']' :: rest))) := by
        rw [dumpsElems]; simp
      rw [hd, parseElems_comma_step, parseVal_ws,
        rtVal v f (dumpsElems vs ++ ']' :: rest) h1 (numEnd_dumpsElems vs rest)]
      simp only []
      rw [rtElems vs f rest h2]

/-- The round-trip for the rendered tail of a nonempty object. -/
theorem rtFields : ∀ (ms : List (String × Jv)) (f : Nat) (rest : List Char),
    (dumpsFields ms).length < f →
    parseFields f (dumpsFields ms ++ '}' :: rest) = some (ms, rest)
  | [], f, rest, hf => by
    cases f with
    | zero => exact absurd hf (by omega)
    | succ f => exact parseFields_close_step f rest
  | (k, v) :: ms, f, rest, hf => by
    cases f with
    | zero => exact absurd hf (by omega)
    | succ f =>
      have hlen := len_dumpsFields_cons k v ms
      have h1 : (dumps v).length < f := by omega
      have h2 : (dumpsFields ms).length < f := by omega
      have hd : dumpsFields ((k, v) :: ms) ++ '}' :: rest
          = ',' :: (' ' :: ('"' :: (k.data.flatMap escCh ++
              ('"' :: (':' :: ' ' :: (dumps v ++ (dumpsFields ms ++ '}' :: rest))))))) := by
        rw [dumpsFields, dumpStr]; simp
      rw [hd, parseFields_commaKey_step, parseStrBody_flat]
      simp only []
      rw [skipWs_not ':' _ (by decide)]
      split
      · rename_i r4 heq
        injection heq with hh1 hh2
        subst hh2
        rw [parseVal_ws, rtVal v f (dumpsFields ms ++ '}' :: rest) h1 (numEnd_dumpsFields ms rest)]
        simp only []
        rw [rtFields ms f rest h2]
      · rename_i hne; exact absurd rfl (hne _)

end

/-- The `json` codec round-trip: decoding an encoded value gives it back. -/
theorem loads_dumps (v : Jv) : loadsChars (dumps v) = some v := by
  rw [loadsChars]
  have h := rtVal v ((dumps v).length + 1) [] (by omega) rfl
  rw [List.append_nil] at h
  rw [h]
  rfl

/-! ## UTF-8 (`str.encode` / `bytes.decode`) -/

/-- UTF-8 bytes of one character. -/
def utf8Ch (c : Char) : List Nat :=
  if c.toNat < 0x80 then [c.toNat]
  else if c.toNat < 0x800 then [0xC0 + c.toNat / 0x40, 0x80 + c.toNat % 0x40]
  else if c.toNat < 0x10000 then
    [0xE0 + c.toNat / 0x1000, 0x80 + c.toNat / 0x40 % 0x40, 0x80 + c.toNat % 0x40]
  else
    [0xF0 + c.toNat / 0x40000, 0x80 + c.toNat / 0x1000 % 0x40,
      0x80 + c.toNat / 0x40 % 0x40, 0x80 + c.toNat % 0x40]

/-- Python `s.encode("utf-8")`. -/
def utf8Enc (cs : List Char) : List Nat := cs.flatMap utf8Ch

/-- Decode one UTF-8 sequence: the character and the remaining bytes.
    `none` models `UnicodeDecodeError` (truncation, bad continuation bytes,
    overlong forms, surrogates, values past 0x10FFFF). -/
def utf8DecodeCh (bs : List Nat) : Option (Char × List Nat) :=
  match bs with
  | [] => none
  | b :: bs =>
    if b < 0x80 then some (Char.ofNat b, bs)
    else if 0xC2 ≤ b ∧ b ≤ 0xDF then
      match bs with
      | b2 :: bs2 =>
        if 0x80 ≤ b2 ∧ b2 ≤ 0xBF then some (Char.ofNat ((b - 0xC0) * 0x40 + (b2 - 0x80)), bs2)
        else none
      | [] => none
    else if 0xE0 ≤ b ∧ b ≤ 0xEF then
      match bs with
      | b2 :: b3 :: bs2 =>
        if (0x80 ≤ b2 ∧ b2 ≤ 0xBF) ∧ (0x80 ≤ b3 ∧ b3 ≤ 0xBF) then
          if (b - 0xE0) * 0x1000 + (b2 - 0x80) * 0x40 + (b3 - 0x80) < 0x800 ∨
              (0xD800 ≤ (b - 0xE0) * 0x1000 + (b2 - 0x80) * 0x40 + (b3 - 0x80) ∧
                (b - 0xE0) * 0x1000 + (b2 - 0x80) * 0x40 + (b3 - 0x80) ≤ 0xDFFF) then none
          else some (Char.ofNat ((b - 0xE0) * 0x1000 + (b2 - 0x80) * 0x40 + (b3 - 0x80)), bs2)
        else none
      | _ => none
    else if 0xF0 ≤ b ∧ b ≤ 0xF4 then
      match bs with
      | b2 :: b3 :: b4 :: bs2 =>
        if (0x80 ≤ b2 ∧ b2 ≤ 0xBF) ∧ (0x80 ≤ b3 ∧ b3 ≤ 0xBF) ∧ (0x80 ≤ b4 ∧ b4 ≤ 0xBF) then
          if (b - 0xF0) * 0x40000 + (b2 - 0x80) * 0x1000 + (b3 - 0x80) * 0x40 + (b4 - 0x80) < 0x10000 ∨
              0x10FFFF < (b - 0xF0) * 0x40000 + (b2 - 0x80) * 0x1000 + (b3 - 0x80) * 0x40 + (b4 - 0x80) then
            none
          else
            some (Char.ofNat ((b - 0xF0) * 0x40000 + (b2 - 0x80) * 0x1000 + (b3 - 0x80) * 0x40 + (b4 - 0x80)), bs2)
        else none
      | _ => none
    else none

/-- Decoding loop; one unit of fuel per character suffices, and each decoded
    character consumes at least one byte, so `bs.length` fuel is always
    enough (see `utf8Dec`). -/
def utf8DecGo : Nat → List Nat → Option (List Char)
  | _, [] => some []
  | 0, _ :: _ => none
  | f + 1, b :: bs =>
    match utf8DecodeCh (b :: bs) with
    | some (c, rest) =>
      match utf8DecGo f rest with
      | some cs => some (c :: cs)
      | none => none
    | none => none

/-- Python `bs.decode("utf-8")` (strict); `none` models `UnicodeDecodeError`. -/
def utf8Dec (bs : List Nat) : Option (List Char) := utf8DecGo bs.length bs

def asciiL (cs : List Char) : Prop := ∀ c ∈ cs, c.toNat < 0x80

theorem utf8Ch_ascii {c : Char} (h : c.toNat < 0x80) : utf8Ch c = [c.toNat] := by
  rw [utf8Ch, if_pos h]

theorem utf8Enc_ascii {cs : List Char} (h : asciiL cs) :
    utf8Enc cs = cs.map Char.toNat := by
  induction cs with
  | nil => rfl
  | cons c t ih =>
    rw [utf8Enc, List.flatMap_cons, utf8Ch_ascii (h c (by simp))]
    rw [List.map_cons, ← utf8Enc, ih (fun x hx => h x (by simp [hx]))]
    rfl

theorem utf8DecGo_ascii {cs : List Char} (h : asciiL cs) :
    ∀ f, cs.length ≤ f → utf8DecGo f (cs.map Char.toNat) = some cs := by
  induction cs with
  | nil => intro f _; cases f <;> rfl
  | cons c t ih =>
    intro f hf
    match f, hf with
    | fr + 1, hfr =>
      have hfr2 : t.length ≤ fr := by simp [List.length_cons] at hfr; omega
      have hc := h c (by simp)
      rw [List.map_cons, utf8DecGo, utf8DecodeCh.eq_def]
      simp only []
      rw [if_pos hc]
      simp only []
      rw [ih (fun x hx => h x (by simp [hx])) fr hfr2]
      simp only []
      rw [Char.ofNat_toNat]

theorem utf8Dec_map_toNat {cs : List Char} (h : asciiL cs) :
    utf8Dec (cs.map Char.toNat) = some cs := by
  rw [utf8Dec, List.length_map]
  exact utf8DecGo_ascii h cs.length (by omega)

theorem utf8Enc_dec_ascii {cs : List Char} (h : asciiL cs) :
    utf8Dec (utf8Enc cs) = some cs := by
  rw [utf8Enc_ascii h, utf8Dec_map_toNat h]

/-! Every character `dumps` emits is ASCII (`ensure_ascii=True`). -/

theorem ascii_natChs (n : Nat) : asciiL (natChs n) := by
  rw [natChs]
  split
  · intro c hc; simp at hc; subst hc; decide
  · intro c hc
    rcases List.mem_map.mp hc with ⟨d, hd, rfl⟩
    have hlt := natDigsRev_lt n d (List.mem_reverse.mp hd)
    match d, hlt with
    | 0, _ => decide
    | 1, _ => decide
    | 2, _ => decide
    | 3, _ => decide
    | 4, _ => decide
    | 5, _ => decide
    | 6, _ => decide
    | 7, _ => decide
    | 8, _ => decide
    | 9, _ => decide

theorem ascii_intChs (i : Int) : asciiL (intChs i) := by
  rw [intChs]
  split
  · intro c hc
    rcases List.mem_cons.mp hc with rfl | hc
    · decide
    · exact ascii_natChs _ c hc
  · exact ascii_natChs _

theorem ascii_hexCh (d : Nat) : (hexCh d).toNat < 0x80 :=
  match d with
  | 0 => by decide
  | 1 => by decide
  | 2 => by decide
  | 3 => by decide
  | 4 => by decide
  | 5 => by decide
  | 6 => by decide
  | 7 => by decide
  | 8 => by decide
  | 9 => by decide
  | 10 => by decide
  | 11 => by decide
  | 12 => by decide
  | 13 => by decide
  | 14 => by decide
  | 15 => by decide
  | _ + 16 => by
    show ('*').toNat < 128
    decide

/-- Every character of a `\u`-escape block is ASCII. -/
theorem ascii_ublock (n : Nat) : asciiL ('\\' :: 'u' :: hex4 n) := by
  intro x hx
  simp only [hex4, List.mem_cons, List.not_mem_nil, or_false] at hx
  rcases hx with rfl | rfl | rfl | rfl | rfl | rfl
  · decide
  · decide
  · exact ascii_hexCh _
  · exact ascii_hexCh _
  · exact ascii_hexCh _
  · exact ascii_hexCh _

theorem ascii_escCh (c : Char) : asciiL (escCh c) := by
  intro x hx
  rw [escCh] at hx
  by_cases h1 : c = '"'
  · rw [if_pos h1] at hx; fin_cases hx <;> decide
  rw [if_neg h1] at hx
  by_cases h2 : c = '\\'
  · rw [if_pos h2] at hx; fin_cases hx <;> decide
  rw [if_neg h2] at hx
  by_cases h3 : c.toNat = 8
  · rw [if_pos h3] at hx; fin_cases hx <;> decide
  rw [if_neg h3] at hx
  by_cases h4 : c.toNat = 12
  · rw [if_pos h4] at hx; fin_cases hx <;> decide
  rw [if_neg h4] at hx
  by_cases h5 : c = '\n'
  · rw [if_pos h5] at hx; fin_cases hx <;> decide
  rw [if_neg h5] at hx
  by_cases h6 : c = '\r'
  · rw [if_pos h6] at hx; fin_cases hx <;> decide
  rw [if_neg h6] at hx
  by_cases h7 : c = '\t'
  · rw [if_pos h7] at hx; fin_cases hx <;> decide
  rw [if_neg h7] at hx
  by_cases h8 : c.toNat < 0x20
  · rw [if_pos h8] at hx
    exact ascii_ublock _ x hx
  rw [if_neg h8] at hx
  by_cases h9 : c.toNat ≤ 0x7E
  · rw [if_pos h9] at hx
    simp at hx; subst hx; omega
  rw [if_neg h9] at hx
  by_cases h10 : c.toNat < 0x10000
  · rw [if_pos h10] at hx
    exact ascii_ublock _ x hx
  rw [if_neg h10] at hx
  rcases List.mem_append.mp hx with hxa | hxb
  · exact ascii_ublock _ x hxa
  · exact ascii_ublock _ x hxb

/-! ## Transport: `_send` and `_read`

`_send` writes `Content-Length: <n>` + CRLF + CRLF + the UTF-8 body.
`_read` scans header lines up to a blank line collecting a case-insensitive
`Content-Length`, then reads that many bytes and `json.loads` them. -/

/-- Model of `_send`: the exact bytes written for one message. -/
def sendBytes (msg : Jv) : List Nat :=
  utf8Enc ("Content-Length: ".data ++ natChs (utf8Enc (dumps msg)).length) ++
    (13 :: 10 :: 13 :: 10 :: utf8Enc (dumps msg))

/-- Model of `sys.stdin.buffer.readline()`: bytes up to and including the
    first newline, or everything at end of stream. -/
def readLine : List Nat → List Nat × List Nat
  | [] => ([], [])
  | b :: bs =>
    if b = 10 then ([10], bs)
    else
      let p := readLine bs
      (b :: p.1, p.2)

/-- Model of `bytes.partition(b":")` (dropping the separator). -/
def splitColon : List Nat → List Nat × List Nat
  | [] => ([], [])
  | b :: bs =>
    if b = 58 then ([], bs)
    else
      let p := splitColon bs
      (b :: p.1, p.2)

/-- ASCII lowercasing of one byte, as `bytes.lower()` does. -/
def lowerByte (b : Nat) : Nat := if 65 ≤ b ∧ b ≤ 90 then b + 32 else b

/-- The bytes of `b"content-length"`. -/
def clKey : List Nat := "content-length".data.map Char.toNat

def bytesToChs (bs : List Nat) : List Char := bs.map Char.ofNat

/-- Model of `int(v.strip())` on header-value bytes (`int` itself strips). -/
def pyIntBytes (bs : List Nat) : Option Int := pyInt (bytesToChs bs)

theorem readLine_cons_lt : ∀ (bs : List Nat) (b : Nat),
    (readLine (b :: bs)).2.length < bs.length + 1 := by
  intro bs
  induction bs with
  | nil =>
    intro b
    rw [readLine]
    split <;> simp [readLine]
  | cons b2 bs2 ih =>
    intro b
    rw [readLine]
    split
    · simp
    · have := ih b2
      simp only [List.length_cons]
      omega

/-- Model of the header loop of `_read`: scan lines until a blank line or end
    of stream, remembering the last `Content-Length` value; a malformed
    `Content-Length` value raises `ValueError` (an error here). -/
def readHeaders (cl : Option Int) (bs : List Nat) : Except String (Option Int × List Nat) :=
  if hbs : bs = [] then .ok (cl, [])
  else if (readLine bs).1 = [13, 10] then .ok (cl, (readLine bs).2)
  else if ((splitColon (readLine bs).1).1.map lowerByte) = clKey then
    match pyIntBytes (splitColon (readLine bs).1).2 with
    | some n => readHeaders (some n) (readLine bs).2
    | none => .error "ValueError: invalid literal for int() with base 10"
  else readHeaders cl (readLine bs).2
termination_by bs.length
decreasing_by
  all_goals
    (rcases bs with _ | ⟨b, bs2⟩
     · exact absurd rfl hbs
     · simpa using readLine_cons_lt bs2 b)

/-- Result of one `_read` call: end of stream, a parsed message plus the rest
    of the stream, or an uncaught exception. -/
inductive ReadRes where
  | eof
  | msg (m : Jv) (rest : List Nat)
  | err (e : String)

/-- Model of `_read`: headers, then `content_length` body bytes (fewer if the
    stream ends first; all the rest on a negative length), decoded as UTF-8
    and parsed as JSON. -/
def readMsg (bs : List Nat) : ReadRes :=
  match readHeaders none bs with
  | .error e => .err e
  | .ok (none, _) => .eof
  | .ok (some n, rest) =>
    let body := if n < 0 then rest else rest.take n.toNat
    let rest2 := if n < 0 then [] else rest.drop n.toNat
    match utf8Dec body with
    | none => .err "UnicodeDecodeError"
    | some chars =>
      match loadsChars chars with
      | none => .err "JSONDecodeError"
      | some v => .msg v rest2

/-! ## Reading back what `_send` wrote -/

theorem chDigit_toNat {c : Char} (h : chDigit c = true) : 48 ≤ c.toNat ∧ c.toNat ≤ 57 := by
  rw [chDigit] at h
  simp only [Bool.and_eq_true, decide_eq_true_eq] at h
  obtain ⟨h1, h2⟩ := h
  constructor
  · simpa [Char.le_def] using h1
  · simpa [Char.le_def] using h2

theorem chDigit_not_pySpace {c : Char} (h : chDigit c = true) : pySpace c = false := by
  have hb := chDigit_toNat h
  by_contra hw
  simp only [Bool.not_eq_false] at hw
  rw [pySpace] at hw
  simp only [Bool.or_eq_true, decide_eq_true_eq] at hw
  rcases hw with ((((h1 | h1) | h1) | h1) | h1) | h1
  · subst h1; exact absurd hb (by decide)
  · subst h1; exact absurd hb (by decide)
  · subst h1; exact absurd hb (by decide)
  · subst h1; exact absurd hb (by decide)
  · omega
  · omega

theorem chDigit_ne_plus {c : Char} (h : chDigit c = true) : c ≠ '+' := by
  intro h1; subst h1; exact absurd h (by decide)

theorem chDigit_ne_under {c : Char} (h : chDigit c = true) : c ≠ '_' := by
  intro h1; subst h1; exact absurd h (by decide)

theorem readLine_no10 (l : List Nat) (h : ∀ b ∈ l, b ≠ 10) (rest : List Nat) :
    readLine (l ++ 10 :: rest) = (l ++ [10], rest) := by
  induction l with
  | nil => simp [readLine]
  | cons b t ih =>
    rw [List.cons_append, readLine, if_neg (h b (by simp))]
    rw [ih (fun x hx => h x (by simp [hx]))]
    rfl

theorem splitColon_at (k : List Nat) (h : ∀ b ∈ k, b ≠ 58) (v : List Nat) :
    splitColon (k ++ 58 :: v) = (k, v) := by
  induction k with
  | nil => simp [splitColon]
  | cons b t ih =>
    rw [List.cons_append, splitColon, if_neg (h b (by simp))]
    rw [ih (fun x hx => h x (by simp [hx]))]

theorem stripLeft_ws (pre : List Char) (h : ∀ c ∈ pre, pySpace c = true) (x : List Char) :
    stripLeft (pre ++ x) = stripLeft x := by
  induction pre with
  | nil => rfl
  | cons c t ih =>
    rw [List.cons_append, stripLeft, if_pos (h c (by simp))]
    exact ih (fun y hy => h y (by simp [hy]))

theorem stripLeft_head (c : Char) (h : pySpace c = false) (t : List Char) :
    stripLeft (c :: t) = c :: t := by
  rw [stripLeft]; simp [h]

theorem pyStrip_clean (pre core post : List Char)
    (hpre : ∀ c ∈ pre, pySpace c = true) (hpost : ∀ c ∈ post, pySpace c = true)
    (hcore : ∀ c ∈ core, pySpace c = false) :
    pyStrip (pre ++ core ++ post) = core := by
  rw [pyStrip]
  have h1 : (pre ++ core ++ post).reverse = post.reverse ++ (core.reverse ++ pre.reverse) := by
    simp [List.reverse_append]
  rw [h1, stripLeft_ws post.reverse (fun c hc => hpost c (List.mem_reverse.mp hc))]
  cases hcr : core.reverse with
  | nil =>
    have hco : core = [] := by
      have := congrArg List.reverse hcr
      simpa using this
    subst hco
    have hsl : stripLeft pre.reverse = [] := by
      have := stripLeft_ws pre.reverse (fun c hc => hpre c (List.mem_reverse.mp hc)) []
      simpa using this
    rw [List.nil_append, hsl]
    rfl
  | cons c1 t1 =>
    have hc1 : pySpace c1 = false := by
      refine hcore c1 (List.mem_reverse.mp ?_)
      rw [hcr]; simp
    rw [List.cons_append, stripLeft_head c1 hc1, ← List.cons_append, ← hcr]
    rw [List.reverse_append, List.reverse_reverse, List.reverse_reverse]
    rw [stripLeft_ws pre hpre]
    cases hco : core with
    | nil => rfl
    | cons c0 t0 =>
      refine stripLeft_head c0 ?_ t0
      exact hcore c0 (by rw [hco]; simp)

theorem pyIntDigsAfter_digits (ds : List Char) (h : ∀ c ∈ ds, chDigit c = true) :
    pyIntDigs.pyIntDigsAfter ds = some (ds.map chDigitVal) := by
  induction ds with
  | nil => rfl
  | cons c t ih =>
    have hc := h c (by simp)
    rw [pyIntDigs.pyIntDigsAfter.eq_def]
    split
    · rename_i heq
      exact absurd heq (by simp)
    · rename_i c2 rest heq
      injection heq with hh
      exact absurd hh (chDigit_ne_under hc)
    · rename_i heq
      injection heq with hh
      exact absurd hh (chDigit_ne_under hc)
    · rename_i heq
      injection heq with hh1 hh2
      subst hh1
      subst hh2
      rw [if_pos hc, ih (fun y hy => h y (by simp [hy]))]
      rfl

theorem pyIntDigs_digits (c : Char) (t : List Char)
    (h : ∀ x ∈ c :: t, chDigit x = true) :
    pyIntDigs (c :: t) = some ((c :: t).map chDigitVal) := by
  have hc := h c (by simp)
  rw [pyIntDigs, if_pos hc, pyIntDigsAfter_digits t (fun y hy => h y (by simp [hy]))]
  rfl

theorem pyInt_clean (pre post : List Char) (n : Nat)
    (hpre : ∀ c ∈ pre, pySpace c = true) (hpost : ∀ c ∈ post, pySpace c = true) :
    pyInt (pre ++ natChs n ++ post) = some (n : Int) := by
  rw [pyInt]
  have hstrip : pyStrip (pre ++ natChs n ++ post) = natChs n :=
    pyStrip_clean _ _ _ hpre hpost
      (fun c hc => chDigit_not_pySpace (natChs_all_digit n c hc))
  rw [hstrip]
  have hnn := natChs_ne_nil n
  match hn : natChs n with
  | [] => exact absurd hn hnn
  | c0 :: t0 =>
    have hall : ∀ x ∈ c0 :: t0, chDigit x = true := by
      rw [← hn]; exact natChs_all_digit n
    have hc0 := hall c0 (by simp)
    have hdigs := pyIntDigs_digits c0 t0 hall
    have hval : digsVal ((c0 :: t0).map chDigitVal) = n := by
      have := natChs_val n
      rwa [hn] at this
    split
    · rename_i rest heq
      injection heq with hh
      exact absurd hh (chDigit_ne_plus hc0)
    · rename_i rest heq
      injection heq with hh
      exact absurd hh ((chDigit_ne hc0).2.2.2.2.2.2.2.2.2.2)
    · rw [hdigs]
      simp only [Option.map_some']
      rw [hval]

mutual

/-- With `ensure_ascii=True`, every byte `dumps` produces is ASCII. -/
theorem ascii_dumps : ∀ v : Jv, asciiL (dumps v)
  | .null => by intro c hc; fin_cases hc <;> decide
  | .bool true => by intro c hc; fin_cases hc <;> decide
  | .bool false => by intro c hc; fin_cases hc <;> decide
  | .num i => ascii_intChs i
  | .str s => by
    intro c hc
    rw [dumps, dumpStr] at hc
    rcases List.mem_cons.mp hc with rfl | hc
    · decide
    rcases List.mem_append.mp hc with hc | hc
    · rcases List.mem_flatMap.mp hc with ⟨a, _, hca⟩
      exact ascii_escCh a c hca
    · simp at hc; subst hc; decide
  | .arr [] => by intro c hc; fin_cases hc <;> decide
  | .arr (v :: vs) => by
    intro c hc
    rw [dumps] at hc
    rcases List.mem_cons.mp hc with rfl | hc
    · decide
    rcases List.mem_append.mp hc with hc | hc
    · rcases List.mem_append.mp hc with hc | hc
      · exact ascii_dumps v c hc
      · exact ascii_dumpsElems vs c hc
    · simp at hc; subst hc; decide
  | .obj [] => by intro c hc; fin_cases hc <;> decide
  | .obj ((k, v) :: ms) => by
    intro c hc
    rw [dumps] at hc
    rcases List.mem_cons.mp hc with rfl | hc
    · decide
    rcases List.mem_append.mp hc with hc | hc
    · exact ascii_dumps (.str k) c (by rw [dumps]; exact hc)
    rcases List.mem_cons.mp hc with rfl | hc
    · decide
    rcases List.mem_cons.mp hc with rfl | hc
    · decide
    rcases List.mem_append.mp hc with hc | hc
    · rcases List.mem_append.mp hc with hc | hc
      · exact ascii_dumps v c hc
      · exact ascii_dumpsFields ms c hc
    · simp at hc; subst hc; decide

theorem ascii_dumpsElems : ∀ vs : List Jv, asciiL (dumpsElems vs)
  | [] => by intro c hc; simp [dumpsElems] at hc
  | v :: vs => by
    intro c hc
    rw [dumpsElems] at hc
    rcases List.mem_cons.mp hc with rfl | hc
    · decide
    rcases List.mem_cons.mp hc with rfl | hc
    · decide
    rcases List.mem_append.mp hc with hc | hc
    · exact ascii_dumps v c hc
    · exact ascii_dumpsElems vs c hc

theorem ascii_dumpsFields : ∀ ms : List (String × Jv), asciiL (dumpsFields ms)
  | [] => by intro c hc; simp [dumpsFields] at hc
  | (k, v) :: ms => by
    intro c hc
    rw [dumpsFields] at hc
    rcases List.mem_cons.mp hc with rfl | hc
    · decide
    rcases List.mem_cons.mp hc with rfl | hc
    · decide
    rcases List.mem_append.mp hc with hc | hc
    · exact ascii_dumps (.str k) c (by rw [dumps]; exact hc)
    rcases List.mem_cons.mp hc with rfl | hc
    · decide
    rcases List.mem_cons.mp hc with rfl | hc
    · decide
    rcases List.mem_append.mp hc with hc | hc
    · exact ascii_dumps v c hc
    · exact ascii_dumpsFields ms c hc

end

theorem mapToNat_clhdr :
    List.map Char.toNat "Content-Length: ".data
      = List.map Char.toNat "Content-Length".data ++ [58, 32] := by decide

theorem clhdr_no10 : ∀ c ∈ "Content-Length: ".data, Char.toNat c ≠ 10 := by decide

theorem clhdr_no58 : ∀ b ∈ List.map Char.toNat "Content-Length".data, b ≠ 58 := by decide

theorem clhdr_lower :
    List.map lowerByte (List.map Char.toNat "Content-Length".data) = clKey := by decide

theorem clhdr_ascii : ∀ c ∈ "Content-Length: ".data, Char.toNat c < 0x80 := by decide

/-- Parsing the value bytes the writer puts after `Content-Length:` gives
    back the length. -/
theorem pyIntBytes_clvalue (n : Nat) :
    pyIntBytes (32 :: List.map Char.toNat (natChs n) ++ [13, 10]) = some (n : Int) := by
  rw [pyIntBytes, bytesToChs]
  have hmap : List.map Char.ofNat (32 :: List.map Char.toNat (natChs n) ++ [13, 10])
      = [' '] ++ natChs n ++ ['\r', '\n'] := by
    simp only [List.map_cons, List.map_append, List.map_map]
    have h1 : Char.ofNat 32 = ' ' := by decide
    have h3 : List.map (Char.ofNat ∘ Char.toNat) (natChs n) = natChs n := by
      conv_rhs => rw [← List.map_id (natChs n)]
      exact List.map_congr_left (fun c _ => Char.ofNat_toNat c)
    have h13 : Char.ofNat 13 = '\r' := by decide
    have h10 : Char.ofNat 10 = '\n' := by decide
    rw [h1, h3, h13, h10]
    simp
  rw [hmap, pyInt_clean [' '] ['\r', '\n'] n (by decide) (by decide)]

/-- The header loop of `_read` on bytes `_send` wrote: it finds exactly the
    declared `Content-Length` — which is the UTF-8 byte length of the body
    `_send` serialized — and stops at the blank line. -/
theorem readHeaders_sendBytes (msg : Jv) (extra : List Nat) :
    readHeaders none (sendBytes msg ++ extra)
      = .ok (some ((utf8Enc (dumps msg)).length : Int), utf8Enc (dumps msg) ++ extra) := by
  have hascii : asciiL ("Content-Length: ".data ++ natChs (utf8Enc (dumps msg)).length) := by
    intro c hc
    rcases List.mem_append.mp hc with hc | hc
    · exact clhdr_ascii c hc
    · exact ascii_natChs _ c hc
  have hstream : sendBytes msg ++ extra
      = List.map Char.toNat ("Content-Length: ".data ++ natChs (utf8Enc (dumps msg)).length)
          ++ 13 :: 10 :: 13 :: 10 :: (utf8Enc (dumps msg) ++ extra) := by
    rw [sendBytes, utf8Enc_ascii hascii]
    simp [List.append_assoc]
  have hno10 : ∀ b ∈ List.map Char.toNat
      ("Content-Length: ".data ++ natChs (utf8Enc (dumps msg)).length) ++ [13], b ≠ 10 := by
    intro b hb
    rcases List.mem_append.mp hb with hb | hb
    · rcases List.mem_map.mp hb with ⟨c, hc, rfl⟩
      rcases List.mem_append.mp hc with hc | hc
      · exact clhdr_no10 c hc
      · have := chDigit_toNat (natChs_all_digit _ c hc)
        omega
    · simp at hb; omega
  have hline : readLine (sendBytes msg ++ extra)
      = (List.map Char.toNat ("Content-Length: ".data ++ natChs (utf8Enc (dumps msg)).length)
          ++ [13, 10], 13 :: 10 :: (utf8Enc (dumps msg) ++ extra)) := by
    rw [hstream]
    have := readLine_no10 _ hno10 (13 :: 10 :: (utf8Enc (dumps msg) ++ extra))
    rw [List.append_assoc, List.singleton_append] at this
    rw [this, List.append_assoc, List.singleton_append]
  have hlinene : (List.map Char.toNat
          ("Content-Length: ".data ++ natChs (utf8Enc (dumps msg)).length) ++ [13, 10])
      ≠ [13, 10] := by
    intro heq
    have hlen := congrArg List.length heq
    simp [List.length_append, List.length_map] at hlen
  have hsplit : splitColon (List.map Char.toNat
        ("Content-Length: ".data ++ natChs (utf8Enc (dumps msg)).length) ++ [13, 10])
      = (List.map Char.toNat "Content-Length".data,
          32 :: List.map Char.toNat (natChs (utf8Enc (dumps msg)).length) ++ [13, 10]) := by
    have harg : List.map Char.toNat
          ("Content-Length: ".data ++ natChs (utf8Enc (dumps msg)).length) ++ [13, 10]
        = List.map Char.toNat "Content-Length".data ++ 58 ::
            (32 :: List.map Char.toNat (natChs (utf8Enc (dumps msg)).length) ++ [13, 10]) := by
      rw [List.map_append, mapToNat_clhdr]
      simp [List.append_assoc]
    rw [harg, splitColon_at _ clhdr_no58]
  have hne : sendBytes msg ++ extra ≠ [] := by
    rw [hstream]
    intro heq
    have := congrArg List.length heq
    simp [List.length_append] at this
  rw [readHeaders.eq_def, dif_neg hne, hline]
  simp only []
  rw [if_neg hlinene, hsplit]
  simp only []
  rw [clhdr_lower, if_pos rfl, pyIntBytes_clvalue]
  simp only []
  have hline2 : readLine (13 :: 10 :: (utf8Enc (dumps msg) ++ extra))
      = ([13, 10], utf8Enc (dumps msg) ++ extra) := by
    have := readLine_no10 [13] (by decide) (utf8Enc (dumps msg) ++ extra)
    simpa using this
  rw [readHeaders.eq_def, dif_neg (by simp), hline2]
  simp only []
  rw [if_true]

/-- Framing round-trip: the reader returns exactly the message the writer
    framed, consuming exactly its bytes. -/
theorem readMsg_sendBytes (msg : Jv) (extra : List Nat) :
    readMsg (sendBytes msg ++ extra) = .msg msg extra := by
  rw [readMsg, readHeaders_sendBytes]
  simp only []
  rw [if_neg (by omega), if_neg (by omega)]
  rw [Int.toNat_natCast]
  rw [List.take_left, List.drop_left]
  rw [utf8Enc_dec_ascii (ascii_dumps msg)]
  simp only []
  rw [loads_dumps]

/-! ## Session state -/

/-- One step of the execution trace, as produced by the external trace
    provider: the fields this core reads. `memory` is a byte blob (`[]`
    plays Python's falsy `b""`/`None`), `storage` a snapshot (`[]` for a
    falsy empty dict); both are only passed on to external decoders. -/
structure Step where
  pc : Int
  op : String
  stack : List Int
  memory : List Nat := []
  storage : List (Int × Int) := []

/-- An entry of the external `function_trace`. -/
structure FunctionInvocation where
  name : String
  entry_step : Nat
  exit_step : Nat := 0

/-- The state of the `EVMDebugger` binding that the DAP core reads and
    writes: `current_trace` (via `.steps`), `current_step`, the resolved
    breakpoint pc set `breakpoints` (here `bps`), `current_function`,
    `function_name` and `contract_address`. -/
structure DebuggerState where
  trace : Option (List Step)
  current_step : Nat
  bps : List Int
  current_function : Option FunctionInvocation
  function_name : String
  contract_address : String

/-- The whole server: `_seq`, every message written to stdout so far (in
    order), the optional `EVMDebugger`, and the `sourcePath → lines`
    dictionary `self.breakpoints`. -/
structure Session where
  seq : Nat
  out : List Jv
  debugger : Option DebuggerState
  breakpoints : List (String × List Jv)

def initSession : Session := { seq := 1, out := [], debugger := none, breakpoints := [] }

def setDbg (s : Session) (d : Option DebuggerState) : Session := { s with debugger := d }

def setBps (s : Session) (b : List (String × List Jv)) : Session := { s with breakpoints := b }

/-! ## JSON access helpers (Python dict semantics) -/

def jLookup (fields : List (String × Jv)) (k : String) : Option Jv :=
  match fields with
  | [] => none
  | (k2, v) :: rest => if k2 = k then some v else jLookup rest k

/-- Python `d.get(k)` for a dict-modelled value (callers guarantee a dict). -/
def jGet (v : Jv) (k : String) : Option Jv :=
  match v with
  | .obj fields => jLookup fields k
  | _ => none

/-- Python truthiness of a JSON-derived value. -/
def jTruthy : Jv → Bool
  | .null => false
  | .bool b => b
  | .num n => n ≠ 0
  | .str s => s ≠ ""
  | .arr xs => ¬xs.isEmpty
  | .obj fs => ¬fs.isEmpty

/-- Python `str()` of a JSON-derived value (`None` → `"None"`, booleans
    capitalized, integers decimal; containers rendered as JSON — a close
    stand-in for `repr`, which the server only ever reaches for strings and
    numbers). -/
def pyStrJ : Jv → String
  | .null => "None"
  | .bool true => "True"
  | .bool false => "False"
  | .num n => String.mk (intChs n)
  | .str s => s
  | .arr xs => String.mk (dumps (.arr xs))
  | .obj fs => String.mk (dumps (.obj fs))

/-- Python `(request.get(k, {}) or {})` used as a dict: its fields, `[]`
    when absent or falsy; `AttributeError` when present, truthy and not a
    dict (`.get` on it would raise). -/
def jFieldsOr (v : Jv) (k : String) : Except String (List (String × Jv)) :=
  match jGet v k with
  | none => .ok []
  | some (.obj fs) => .ok fs
  | some w => if jTruthy w then .error "AttributeError: no attribute get" else .ok []

/-- Python `request.get(k, {})` used as a dict — without the `or {}` guard:
    a present falsy non-dict value (such as `null`) already raises. -/
def jFieldsRaw (v : Jv) (k : String) : Except String (List (String × Jv)) :=
  match jGet v k with
  | none => .ok []
  | some (.obj fs) => .ok fs
  | some _ => .error "AttributeError: no attribute get"

/-- Python dict assignment `d[k] = v`: replace in place or append. -/
def dictSet (d : List (String × List Jv)) (k : String) (v : List Jv) :
    List (String × List Jv) :=
  match d with
  | [] => [(k, v)]
  | (k2, v2) :: rest => if k2 = k then (k, v) :: rest else (k2, v2) :: dictSet rest k v

/-! ## The two send primitives (`_event` / `_response`) -/

/-- The dict `_event` builds (insertion order). -/
def eventMsg (seq : Nat) (name : String) (body : Option Jv) : Jv :=
  .obj [("type", .str "event"), ("seq", .num seq), ("event", .str name),
    ("body", match body with
             | some b => if jTruthy b then b else .obj []
             | none => .obj [])]

/-- The dict `_response` builds: `body` only when not `None`, `message`
    only when nonempty and the response failed. -/
def respMsg (seq : Nat) (request : Jv) (success : Bool) (body : Option Jv)
    (message : Option String) : Jv :=
  .obj ([("type", .str "response"), ("seq", .num seq),
      ("request_seq", (jGet request "seq").getD .null),
      ("success", .bool success),
      ("command", (jGet request "command").getD .null)] ++
    (match body with | some b => [("body", b)] | none => []) ++
    (match message with
     | some m => if m ≠ "" ∧ success = false then [("message", .str m)] else []
     | none => []))

/-- Model of `_event`: build the event with the current `_seq`, bump the
    counter, write the message. -/
def sendEvent (s : Session) (name : String) (body : Option Jv) : Session :=
  { s with seq := s.seq + 1, out := s.out ++ [eventMsg s.seq name body] }

/-- Model of `_response`, mirroring `_event`'s counter discipline. -/
def sendResponse (s : Session) (request : Jv) (success : Bool) (body : Option Jv)
    (message : Option String) : Session :=
  { s with seq := s.seq + 1, out := s.out ++ [respMsg s.seq request success body message] }

/-! ## External collaborators

Everything the handlers call on `EVMDebugger`/`AutoDeployDebugger`/the
tracer is outside this repository; each call site is an oracle here. The
handlers' own control flow around the oracles is modelled faithfully. -/

/-- A variable descriptor from `get_variables_at_pc`. -/
structure VarInfo where
  name : String
  vtype : String
  location_type : String
  offset : Nat

/-- The observable outcome of `_do_interactive()` run under output capture:
    an optional exception, the `current_trace` and `function_trace` it left
    on the debugger, and the captured stdout text. -/
structure SimOutcome where
  raised : Option String
  trace : Option (List Step)
  ftrace : Option (List FunctionInvocation)
  captured : String

/-- Oracles for the external collaborators. Mutating calls return the new
    debugger state; a `do_break`/step failure models a raised exception. -/
structure Ext where
  /-- `AutoDeployDebugger(...)`: address, debug dir, abi path, rpc url — or a raise. -/
  deploy : Except String (String × String × String × String)
  /-- `EVMDebugger(...)` constructor outcome (`none` = returned normally). -/
  construct : Option String
  /-- `_do_interactive()` under capture. -/
  simulate : SimOutcome
  /-- `do_break(spec)`: new debugger state and whether it returned (`true`)
      or raised (`false`, state kept). -/
  doBreak : Jv → DebuggerState → DebuggerState × Bool
  /-- `do_next("")`: new state, and an exception message if it raised. -/
  doNext : DebuggerState → DebuggerState × Option String
  /-- `do_nexti("")`. -/
  doNexti : DebuggerState → DebuggerState × Option String
  /-- Truthiness of `tracer.ethdebug_info`. -/
  infoAvail : Bool
  /-- Truthiness of `tracer.ethdebug_parser`. -/
  parserAvail : Bool
  /-- `ethdebug_info.get_source_info(pc)`: source path and byte offset. -/
  sourceInfo : Int → Option (String × Int)
  /-- `ethdebug_parser.offset_to_line_col(path, offset)`. -/
  offsetToLineCol : String → Int → Int × Int
  /-- `ethdebug_info.get_variables_at_pc(pc)`. -/
  varsAtPc : Int → List VarInfo
  /-- `str(tracer.decode_value(raw, type))`. -/
  decodeValue : Int → String → String
  /-- `str(tracer.extract_from_memory(memory, offset, type))`. -/
  extractMemory : List Nat → Nat → String → String
  /-- `str(tracer.extract_from_storage(storage, offset, type))`. -/
  extractStorage : List (Int × Int) → Nat → String → String

/-! ## Handlers -/

/-- Model of `initialize`: fixed capabilities, then the `initialized` event. -/
def initializeReq (s : Session) (request : Jv) : Session :=
  let caps : Jv := .obj [
    ("supportsConfigurationDoneRequest", .bool true),
    ("supportsSetBreakpointsRequest", .bool true),
    ("supportsTerminateRequest", .bool true),
    ("supportsEvaluateForHovers", .bool false),
    ("supportsStepInTargetsRequest", .bool false),
    ("supportsStepBack", .bool false),
    ("supportsDataBreakpoints", .bool false),
    ("supportsCompletionsRequest", .bool false),
    ("supportsExceptionInfoRequest", .bool false)]
  let s1 := sendResponse s request true (some (.obj [("capabilities", caps)])) none
  sendEvent s1 "initialized" none

/-- Model of `threads`. -/
def threadsReq (s : Session) (request : Jv) : Session :=
  sendResponse s request true
    (some (.obj [("threads", .arr [.obj [("id", .num 1), ("name", .str "main")]])])) none

/-- Model of `scopes`: the three fixed scopes. -/
def scopesReq (s : Session) (request : Jv) : Session :=
  sendResponse s request true (some (.obj [("scopes", .arr [
    .obj [("name", .str "Locals"), ("variablesReference", .num 1001), ("expensive", .bool false)],
    .obj [("name", .str "Stack"), ("variablesReference", .num 1002), ("expensive", .bool false)],
    .obj [("name", .str "Storage"), ("variablesReference", .num 1003),
      ("expensive", .bool false)]])])) none

/-- The scan loop of `continue_`: advance one step at a time from `i`,
    stopping at the first step whose `pc` is a registered breakpoint pc or
    at the last valid index. -/
def continueFrom (steps : List Step) (bps : List Int) (i : Nat) : Nat :=
  if h : i + 1 < steps.length then
    if (steps.get ⟨i + 1, h⟩).pc ∈ bps then i + 1
    else continueFrom steps bps (i + 1)
  else i
termination_by steps.length - i

/-- Model of `continue_`: the no-trace degenerate path responds success and
    still emits `stopped(breakpoint)`; otherwise scan, respond
    `allThreadsContinued=false`, emit `stopped(breakpoint)`. -/
def continueReq (s : Session) (request : Jv) : Session :=
  match s.debugger with
  | none =>
    let s1 := sendResponse s request true (some (.obj [])) none
    sendEvent s1 "stopped" (some (.obj [("reason", .str "breakpoint"), ("threadId", .num 1)]))
  | some dbg =>
    match dbg.trace with
    | none =>
      let s1 := sendResponse s request true (some (.obj [])) none
      sendEvent s1 "stopped" (some (.obj [("reason", .str "breakpoint"), ("threadId", .num 1)]))
    | some steps =>
      let s1 := setDbg s (some { dbg with
        current_step := continueFrom steps dbg.bps dbg.current_step })
      let s2 := sendResponse s1 request true
        (some (.obj [("allThreadsContinued", .bool false)])) none
      sendEvent s2 "stopped" (some (.obj [("reason", .str "breakpoint"), ("threadId", .num 1)]))

/-- Model of `next` (and of `stepOut`, which just calls it): one external
    source-level step, success + `stopped(step)`, or a failure response
    carrying the exception's message (state as the primitive left it). -/
def nextReq (ext : Ext) (s : Session) (request : Jv) : Session :=
  match s.debugger with
  | none =>
    let s1 := sendResponse s request true (some (.obj [])) none
    sendEvent s1 "stopped" (some (.obj [("reason", .str "step"), ("threadId", .num 1)]))
  | some dbg =>
    match ext.doNext dbg with
    | (dbg2, none) =>
      let s1 := sendResponse (setDbg s (some dbg2)) request true (some (.obj [])) none
      sendEvent s1 "stopped" (some (.obj [("reason", .str "step"), ("threadId", .num 1)]))
    | (dbg2, some e) => sendResponse (setDbg s (some dbg2)) request false none (some e)

/-- Model of `stepIn`: like `next` with the instruction-level primitive. -/
def stepInReq (ext : Ext) (s : Session) (request : Jv) : Session :=
  match s.debugger with
  | none =>
    let s1 := sendResponse s request true (some (.obj [])) none
    sendEvent s1 "stopped" (some (.obj [("reason", .str "step"), ("threadId", .num 1)]))
  | some dbg =>
    match ext.doNexti dbg with
    | (dbg2, none) =>
      let s1 := sendResponse (setDbg s (some dbg2)) request true (some (.obj [])) none
      sendEvent s1 "stopped" (some (.obj [("reason", .str "step"), ("threadId", .num 1)]))
    | (dbg2, some e) => sendResponse (setDbg s (some dbg2)) request false none (some e)

/-- Extract the `"line"` values of the descriptors, in input order. -/
def linesOf (bps : List Jv) : List Jv :=
  match bps with
  | [] => []
  | .obj fs :: rest =>
    match jLookup fs "line" with
    | some v => v :: linesOf rest
    | none => linesOf rest
  | _ :: rest => linesOf rest

/-- Extract the `"functionName"` values of the descriptors, in input order. -/
def funcsOf (bps : List Jv) : List Jv :=
  match bps with
  | [] => []
  | .obj fs :: rest =>
    match jLookup fs "functionName" with
    | some v => v :: funcsOf rest
    | none => funcsOf rest
  | _ :: rest => funcsOf rest

/-- Whether every descriptor is a dict; a non-dict raises `TypeError` at
    `"line" in bp` (modelled as a crash; a plain string would really do a
    substring test — the server never receives one). -/
def allObjs : List Jv → Bool
  | [] => true
  | .obj _ :: rest => allObjs rest
  | _ :: _ => false

/-- Run `do_break` over the line descriptors in order, building their
    verification records. -/
def verifyLines (ext : Ext) (path : String) : DebuggerState → List Jv →
    DebuggerState × List Jv
  | dbg, [] => (dbg, [])
  | dbg, lv :: rest =>
    match ext.doBreak (.str (path ++ ":" ++ pyStrJ lv)) dbg with
    | (dbg2, okb) =>
      match verifyLines ext path dbg2 rest with
      | (dbg3, recs) => (dbg3, .obj [("verified", .bool okb), ("line", lv)] :: recs)

/-- Run `do_break` over the function-name descriptors in order. -/
def verifyFuncs (ext : Ext) : DebuggerState → List Jv → DebuggerState × List Jv
  | dbg, [] => (dbg, [])
  | dbg, fv :: rest =>
    match ext.doBreak fv dbg with
    | (dbg2, okb) =>
      match verifyFuncs ext dbg2 rest with
      | (dbg3, recs) => (dbg3, .obj [("verified", .bool okb), ("functionName", fv)] :: recs)

/-- The `path = src.get("path") or ""` computation of `setBreakpoints`. -/
def bpPath (sfs : List (String × Jv)) : String :=
  match jLookup sfs "path" with
  | some v => if jTruthy v then pyStrJ v else ""
  | none => ""

/-- Model of `setBreakpoints`: separate line and function descriptors,
    replace the stored line list for the path, then (only with a live
    debugger) resolve each descriptor independently — line records first,
    then function records — and always respond success. -/
def setBreakpointsReq (ext : Ext) (s : Session) (request : Jv) : Session × Option String :=
  match jFieldsOr request "arguments" with
  | .error e => (s, some e)
  | .ok afs =>
    match jFieldsOr (.obj afs) "source" with
    | .error e => (s, some e)
    | .ok sfs =>
      let path := bpPath sfs
      let bplist := match jLookup afs "breakpoints" with
                    | some (.arr xs) => some xs
                    | none => some []
                    | some _ => none
      match bplist with
      | none => (s, some "TypeError: object is not iterable")
      | some xs =>
        if allObjs xs then
          let lines := linesOf xs
          let funcs := funcsOf xs
          let s1 := setBps s (dictSet s.breakpoints path lines)
          match s1.debugger with
          | none => (sendResponse s1 request true (some (.obj [("breakpoints", .arr [])])) none,
              none)
          | some dbg =>
            match verifyLines ext path dbg lines with
            | (dbg2, lrecs) =>
              match verifyFuncs ext dbg2 funcs with
              | (dbg3, frecs) =>
                (sendResponse (setDbg s1 (some dbg3)) request true
                  (some (.obj [("breakpoints", .arr (lrecs ++ frecs))])) none, none)
        else (s, some "TypeError: argument of type is not iterable")

/-- Python `os.path.basename`. -/
def basename (s : String) : String :=
  String.mk ((s.data.reverse.takeWhile (fun c => c ≠ '/')).reverse)

/-- Model of `stackTrace`: without a trace, an empty-frame success (note:
    no `totalFrames` key on this path); with one, a single synthetic frame
    resolved through the source-map oracles. Indexing the trace out of
    range is an uncaught `IndexError` (a crash). -/
def stackTraceReq (ext : Ext) (s : Session) (request : Jv) : Session × Option String :=
  match s.debugger with
  | none => (sendResponse s request true (some (.obj [("stackFrames", .arr [])])) none, none)
  | some dbg =>
    match dbg.trace with
    | none => (sendResponse s request true (some (.obj [("stackFrames", .arr [])])) none, none)
    | some steps =>
      match steps.get? dbg.current_step with
      | none => (s, some "IndexError: list index out of range")
      | some step =>
        let pc := step.pc
        let name := match dbg.current_function with
                    | some f => if f.name ≠ "" then f.name else "pc:" ++ String.mk (intChs pc)
                    | none => "pc:" ++ String.mk (intChs pc)
        let resolved : Option (Jv × Int × Int) :=
          if ext.infoAvail ∧ ext.parserAvail then
            match ext.sourceInfo pc with
            | some (spath, offset) =>
              match ext.offsetToLineCol spath offset with
              | (l, c) =>
                some (.obj [("name", .str (basename spath)), ("path", .str spath)], l, c)
            | none => none
          else none
        let frame : Jv := .obj [
          ("id", .num 1),
          ("name", .str name),
          ("line", .num (match resolved with
                         | some (_, l, _) => if l = 0 then 1 else l
                         | none => 1)),
          ("column", .num (match resolved with
                           | some (_, _, c) => if c = 0 then 1 else c
                           | none => 1)),
          ("source", match resolved with
                     | some (src, _, _) => src
                     | none => .obj [])]
        (sendResponse s request true
          (some (.obj [("stackFrames", .arr [frame]), ("totalFrames", .num 1)])) none, none)

/-- One Locals entry of `variables` (ref 1001): dispatch on the location
    kind, guarded exactly as the code guards it, `str(None)` otherwise. -/
def localVarEntry (ext : Ext) (step : Step) (var : VarInfo) : Jv :=
  let value : String :=
    if h : var.location_type = "stack" ∧ var.offset < step.stack.length then
      ext.decodeValue (step.stack.get ⟨var.offset, h.2⟩) var.vtype
    else if var.location_type = "memory" ∧ ¬step.memory.isEmpty then
      ext.extractMemory step.memory var.offset var.vtype
    else if var.location_type = "storage" ∧ ¬step.storage.isEmpty then
      ext.extractStorage step.storage var.offset var.vtype
    else "None"
  .obj [("name", .str var.name), ("value", .str value), ("type", .str var.vtype),
    ("variablesReference", .num 0)]

/-- The Stack entries of `variables` (ref 1002): raw stack, hex-formatted. -/
def stackEntries (stack : List Int) : List Jv :=
  (List.range stack.length).zip stack |>.map fun p =>
    .obj [("name", .str ("stack[" ++ String.mk (natChs p.1) ++ "]")),
      ("value", .str (pyHex p.2)), ("variablesReference", .num 0)]

/-- Model of `variables`. -/
def variablesReq (ext : Ext) (s : Session) (request : Jv) : Session × Option String :=
  match jFieldsRaw request "arguments" with
  | .error e => (s, some e)
  | .ok afs =>
    let ref := jLookup afs "variablesReference"
    match s.debugger with
    | none => (sendResponse s request true (some (.obj [("variables", .arr [])])) none, none)
    | some dbg =>
      match dbg.trace with
      | none => (sendResponse s request true (some (.obj [("variables", .arr [])])) none, none)
      | some steps =>
        match steps.get? dbg.current_step with
        | none => (s, some "IndexError: list index out of range")
        | some step =>
          let vars : List Jv :=
            match ref with
            | some (.num 1001) =>
              if ext.infoAvail then (ext.varsAtPc step.pc).map (localVarEntry ext step)
              else []
            | some (.num 1002) => stackEntries step.stack
            | _ => []
          (sendResponse s request true (some (.obj [("variables", .arr vars)])) none, none)

/-! ## `evaluate` -/

/-- The `try`-block of `evaluate`: `"n/a"` unless the expression has the
    `stack[...]` shell and a live trace exists, in which case the bracket
    content goes through `int()` and the current step's stack through
    Python indexing; any raise (bad literal, out-of-range step or stack
    index) surfaces as the exception's message. -/
def evalExprResult (dbg : Option DebuggerState) (expr : String) : Except String String :=
  if "stack[".data.isPrefixOf expr.data && "]".data.isSuffixOf expr.data &&
      (match dbg with
       | some d => d.trace.isSome
       | none => false) then
    let mid := (expr.data.drop 6).dropLast
    match pyInt mid with
    | none =>
      .error ("invalid literal for int() with base 10: '" ++ String.mk mid ++ "'")
    | some idx =>
      match dbg with
      | none => .ok "n/a"
      | some d =>
        match d.trace with
        | none => .ok "n/a"
        | some steps =>
          match steps.get? d.current_step with
          | none => .error "list index out of range"
          | some step =>
            match pyIndex step.stack idx with
            | .error e => .error e
            | .ok v => .ok (pyHex v)
  else .ok "n/a"

/-- Model of `evaluate`: a non-string expression value raises inside the
    `try` (failure response); otherwise wrap `evalExprResult` as success
    `{result, variablesReference: 0}` or a failure carrying the message.
    A truthy non-dict `arguments` raises outside the `try` (a crash). -/
def evaluateReq (s : Session) (request : Jv) : Session × Option String :=
  match jFieldsRaw request "arguments" with
  | .error e => (s, some e)
  | .ok afs =>
    match (jLookup afs "expression").getD (.str "") with
    | .str expr =>
      (match evalExprResult s.debugger expr with
       | .ok r =>
         (sendResponse s request true
           (some (.obj [("result", .str r), ("variablesReference", .num 0)])) none, none)
       | .error e => (sendResponse s request false none (some e), none))
    | _ => (sendResponse s request false none
        (some "AttributeError: object has no attribute startswith"), none)

/-! ## `launch` -/

/-- Entry-step resolution of `launch` (source lines 240–262): prefer the
    invocation named like the requested function; otherwise skip the
    dispatcher at index 0 when more than one invocation exists; otherwise
    the only invocation; 0 without a function trace. Returns the entry step
    and the new `current_function`. -/
def resolveEntry (ftrace : Option (List FunctionInvocation)) (fname : String) :
    Nat × Option FunctionInvocation :=
  match ftrace with
  | none => (0, none)
  | some ft =>
    match ft.find? (fun f => f.name = fname) with
    | some tf => (tf.entry_step, some tf)
    | none =>
      match ft with
      | [] => (0, none)
      | [f0] => (f0.entry_step, some f0)
      | _ :: f1 :: _ => (f1.entry_step, some f1)

/-- Python `int(x)` applied to a JSON-derived value (`forkPort`). -/
def pyIntOfJ : Jv → Except String Int
  | .num n => .ok n
  | .bool true => .ok 1
  | .bool false => .ok 0
  | .str s =>
    (match pyInt s.data with
     | some n => .ok n
     | none => .error "ValueError: invalid literal for int() with base 10")
  | _ => .error "TypeError: int() argument"

/-- The part of `launch` inside the outer `try`, after a debugger has been
    constructed: simulation under capture (emitting the captured text as an
    `output` event), the non-empty-trace check, entry-step resolution, and
    the success response plus `thread started` and `stopped(entry)` events.
    Failures return the failure message to the caller; the session keeps
    every mutation already made. -/
def launchAfterConstruct (ext : Ext) (s : Session) (request : Jv) (dbg0 : DebuggerState) :
    Session :=
  if dbg0.contract_address = "" then
    sendResponse (setDbg s (some dbg0)) request false none
      (some "Failed to generate execution trace: No contract address available for simulation")
  else if dbg0.function_name = "" then
    sendResponse (setDbg s (some dbg0)) request false none
      (some "Failed to generate execution trace: No function name specified for debugging")
  else
    let sim := ext.simulate
    let dbg1 := { dbg0 with trace := sim.trace }
    let s1 := setDbg s (some dbg1)
    let s2 := if sim.captured ≠ "" then
        sendEvent s1 "output"
          (some (.obj [("output", .str sim.captured), ("category", .str "stdout")]))
      else s1
    match sim.raised with
    | some e =>
      sendResponse s2 request false none (some ("Failed to generate execution trace: " ++ e))
    | none =>
      match sim.trace with
      | none =>
        sendResponse s2 request false none
          (some ("Failed to generate execution trace: " ++
            "Simulation failed to generate trace - check function name and arguments"))
      | some _ =>
        let r := resolveEntry sim.ftrace dbg1.function_name
        let dbg2 := { dbg1 with current_step := r.1, current_function := r.2 }
        let s3 := setDbg s2 (some dbg2)
        let s4 := sendResponse s3 request true (some (.obj [])) none
        let s5 := sendEvent s4 "thread"
          (some (.obj [("reason", .str "started"), ("threadId", .num 1)]))
        sendEvent s5 "stopped" (some (.obj [("reason", .str "entry"), ("threadId", .num 1)]))

/-- Model of `launch`. Argument extraction happens before the `try` (a bad
    `arguments`/`forkPort` is a crash); mode selection, debugger
    construction and everything after run inside it (failures become
    failure responses). -/
def launchReq (ext : Ext) (s : Session) (request : Jv) : Session × Option String :=
  match jFieldsOr request "arguments" with
  | .error e => (s, some e)
  | .ok afs =>
    let contract_file := (jLookup afs "contractFile").getD .null
    let contract_address := (jLookup afs "contractAddress").getD .null
    let ethdebug_dir := (jLookup afs "ethdebugDir").getD .null
    match pyIntOfJ ((jLookup afs "forkPort").getD (.num 8545)) with
    | .error e => (s, some e)
    | .ok _ =>
      let function_signature :=
        let v := (jLookup afs "function_signature").getD .null
        if jTruthy v then v else (jLookup afs "function").getD .null
      let fname := if jTruthy function_signature then pyStrJ function_signature else ""
      let addr : Except String String :=
        if jTruthy contract_file then
          match ext.deploy with
          | .ok (a, _, _, _) => .ok a
          | .error e => .error e
        else if jTruthy contract_address ∧ jTruthy ethdebug_dir then
          .ok (pyStrJ contract_address)
        else .error "Provide contractFile or contractAddress + ethdebugDir"
      match addr with
      | .error e => (sendResponse s request false none (some e), none)
      | .ok a =>
        match ext.construct with
        | some e => (sendResponse s request false none (some e), none)
        | none =>
          let dbg0 : DebuggerState :=
            { trace := none, current_step := 0, bps := [], current_function := none,
              function_name := fname, contract_address := a }
          (launchAfterConstruct ext s request dbg0, none)

/-! ## The dispatch loop (`run`) -/

/-- What one loop iteration decides: keep looping, stop (after
    `disconnect`/`terminate`), or die on an uncaught exception. -/
inductive Outcome where
  | next
  | halt
  | crash (e : String)

/-- Model of one iteration of `run` on an already-parsed message: skip
    anything that is not a request, then dispatch on `command` exactly as
    the `elif` chain does. A non-dict message crashes at `msg.get`. -/
def isReqType : Option Jv → Bool
  | some (.str s) => s = "request"
  | _ => false

def wrap (p : Session × Option String) : Session × Outcome :=
  match p with
  | (s2, none) => (s2, .next)
  | (s2, some e) => (s2, .crash e)

def cmdStr : Option Jv → Option String
  | some (.str s) => some s
  | _ => none

/-- Whether the Python comparison `msg.get("command") == c` holds. -/
def cmdIs (fields : List (String × Jv)) (c : String) : Bool :=
  cmdStr (jLookup fields "command") = some c

def runStep (ext : Ext) (s : Session) (msg : Jv) : Session × Outcome :=
  match msg with
  | .obj fields =>
    if isReqType (jLookup fields "type") then
      if cmdIs fields "initialize" then (initializeReq s msg, .next)
      else if cmdIs fields "launch" then wrap (launchReq ext s msg)
      else if cmdIs fields "setBreakpoints" then wrap (setBreakpointsReq ext s msg)
      else if cmdIs fields "configurationDone" then
        (sendResponse s msg true (some (.obj [])) none, .next)
      else if cmdIs fields "threads" then (threadsReq s msg, .next)
      else if cmdIs fields "continue" then (continueReq s msg, .next)
      else if cmdIs fields "next" then (nextReq ext s msg, .next)
      else if cmdIs fields "stepIn" then (stepInReq ext s msg, .next)
      else if cmdIs fields "stepOut" then (nextReq ext s msg, .next)
      else if cmdIs fields "stackTrace" then wrap (stackTraceReq ext s msg)
      else if cmdIs fields "scopes" then (scopesReq s msg, .next)
      else if cmdIs fields "variables" then wrap (variablesReq ext s msg)
      else if cmdIs fields "evaluate" then wrap (evaluateReq s msg)
      else if cmdIs fields "disconnect" then
        (sendResponse s msg true (some (.obj [])) none, .halt)
      else if cmdIs fields "terminate" then
        (sendResponse s msg true (some (.obj [])) none, .halt)
      else
        (sendResponse s msg false none
          (some ("Unsupported command: " ++
            pyStrJ ((jLookup fields "command").getD .null))), .next)
    else (s, .next)
  | _ => (s, .crash "AttributeError: object has no attribute get")

/-- Model of `run`: read framed messages until end of stream, a handler
    crash, an uncaught transport error, or `disconnect`/`terminate`.
    `none` in the second component is the clean, silent termination;
    `some e` an uncaught exception. Fuel only bounds the iteration count
    (each iteration consumes at least one byte in reality). -/
def runLoop (ext : Ext) : Nat → Session → List Nat → Session × Option String
  | 0, s, _ => (s, some "out of fuel")
  | fuel + 1, s, stream =>
    match readMsg stream with
    | .eof => (s, none)
    | .err e => (s, some e)
    | .msg m rest =>
      match runStep ext s m with
      | (s2, .next) => runLoop ext fuel s2 rest
      | (s2, .halt) => (s2, none)
      | (s2, .crash e) => (s2, some e)

/-! ## Shared claim infrastructure -/

/-- A neutral oracle assignment, used to instantiate witnesses. -/
def extDefault : Ext := {
  deploy := .error "no deploy",
  construct := none,
  simulate := { raised := none, trace := none, ftrace := none, captured := "" },
  doBreak := fun _ d => (d, true),
  doNext := fun d => (d, none),
  doNexti := fun d => (d, none),
  infoAvail := false,
  parserAvail := false,
  sourceInfo := fun _ => none,
  offsetToLineCol := fun _ _ => (0, 0),
  varsAtPc := fun _ => [],
  decodeValue := fun _ _ => "",
  extractMemory := fun _ _ _ => "",
  extractStorage := fun _ _ _ => "" }

/-- Whether the step at index `j` sits on a registered breakpoint pc. -/
def hitB (steps : List Step) (bps : List Int) (j : Nat) : Bool :=
  match steps.get? j with
  | some st => st.pc ∈ bps
  | none => false

/-- The `seq` fields of a list of outgoing messages, in send order. -/
def seqsOf (msgs : List Jv) : List (Option Jv) := msgs.map (fun m => jGet m "seq")

/-- The sequence-counter invariant: the messages sent so far carry exactly
    `1, 2, …, seq - 1`, and the counter is at least its initial 1. -/
def seqInv (s : Session) : Prop :=
  1 ≤ s.seq ∧ seqsOf s.out = (List.range' 1 (s.seq - 1)).map (fun n => some (.num (n : Int)))

theorem seqInv_init : seqInv initSession := by
  constructor
  · decide
  · rfl

/-- Appending one message carrying the current counter keeps the invariant. -/
theorem seqInv_send (s : Session) (m : Jv) (h : seqInv s)
    (hm : jGet m "seq" = some (.num (s.seq : Int))) :
    seqInv { s with seq := s.seq + 1, out := s.out ++ [m] } := by
  obtain ⟨h1, h2⟩ := h
  constructor
  · show 1 ≤ s.seq + 1
    omega
  · show seqsOf (s.out ++ [m]) = _
    rw [seqsOf, List.map_append, ← seqsOf, h2]
    have he : s.seq + 1 - 1 = (s.seq - 1) + 1 := by omega
    simp only []
    rw [he, List.range'_concat, List.map_append]
    have h1e : 1 + 1 * (s.seq - 1) = s.seq := by omega
    rw [h1e]
    simp [hm]

theorem seqInv_sendEvent (s : Session) (name : String) (body : Option Jv) (h : seqInv s) :
    seqInv (sendEvent s name body) :=
  seqInv_send s (eventMsg s.seq name body) h rfl

theorem seqInv_sendResponse (s : Session) (request : Jv) (success : Bool) (body : Option Jv)
    (message : Option String) (h : seqInv s) :
    seqInv (sendResponse s request success body message) :=
  seqInv_send s (respMsg s.seq request success body message) h rfl

theorem seqInv_setDbg (s : Session) (d : Option DebuggerState) (h : seqInv s) :
    seqInv (setDbg s d) := h

theorem seqInv_setBps (s : Session) (b : List (String × List Jv)) (h : seqInv s) :
    seqInv (setBps s b) := h

theorem seqInv_initializeReq (s : Session) (request : Jv) (h : seqInv s) :
    seqInv (initializeReq s request) :=
  seqInv_sendEvent _ _ _ (seqInv_sendResponse _ _ _ _ _ h)

theorem seqInv_threadsReq (s : Session) (request : Jv) (h : seqInv s) :
    seqInv (threadsReq s request) :=
  seqInv_sendResponse _ _ _ _ _ h

theorem seqInv_scopesReq (s : Session) (request : Jv) (h : seqInv s) :
    seqInv (scopesReq s request) :=
  seqInv_sendResponse _ _ _ _ _ h

theorem seqInv_continueReq (s : Session) (request : Jv) (h : seqInv s) :
    seqInv (continueReq s request) := by
  rw [continueReq]
  split
  · exact seqInv_sendEvent _ _ _ (seqInv_sendResponse _ _ _ _ _ h)
  · split
    · exact seqInv_sendEvent _ _ _ (seqInv_sendResponse _ _ _ _ _ h)
    · exact seqInv_sendEvent _ _ _
        (seqInv_sendResponse _ _ _ _ _ (seqInv_setDbg _ _ h))

theorem seqInv_nextReq (ext : Ext) (s : Session) (request : Jv) (h : seqInv s) :
    seqInv (nextReq ext s request) := by
  rw [nextReq]
  split
  · exact seqInv_sendEvent _ _ _ (seqInv_sendResponse _ _ _ _ _ h)
  · split
    · exact seqInv_sendEvent _ _ _ (seqInv_sendResponse _ _ _ _ _ (seqInv_setDbg _ _ h))
    · exact seqInv_sendResponse _ _ _ _ _ (seqInv_setDbg _ _ h)

theorem seqInv_stepInReq (ext : Ext) (s : Session) (request : Jv) (h : seqInv s) :
    seqInv (stepInReq ext s request) := by
  rw [stepInReq]
  split
  · exact seqInv_sendEvent _ _ _ (seqInv_sendResponse _ _ _ _ _ h)
  · split
    · exact seqInv_sendEvent _ _ _ (seqInv_sendResponse _ _ _ _ _ (seqInv_setDbg _ _ h))
    · exact seqInv_sendResponse _ _ _ _ _ (seqInv_setDbg _ _ h)

theorem seqInv_setBreakpointsReq (ext : Ext) (s : Session) (request : Jv) (h : seqInv s) :
    seqInv (setBreakpointsReq ext s request).1 := by
  rw [setBreakpointsReq]
  repeat' (first | split | simp only [])
  all_goals first
    | exact h
    | exact seqInv_sendResponse _ _ _ _ _ h

theorem seqInv_stackTraceReq (ext : Ext) (s : Session) (request : Jv) (h : seqInv s) :
    seqInv (stackTraceReq ext s request).1 := by
  rw [stackTraceReq]
  repeat' (first | split | simp only [])
  all_goals first
    | exact h
    | exact seqInv_sendResponse _ _ _ _ _ h

theorem seqInv_variablesReq (ext : Ext) (s : Session) (request : Jv) (h : seqInv s) :
    seqInv (variablesReq ext s request).1 := by
  rw [variablesReq]
  repeat' (first | split | simp only [])
  all_goals first
    | exact h
    | exact seqInv_sendResponse _ _ _ _ _ h

theorem seqInv_evaluateReq (s : Session) (request : Jv) (h : seqInv s) :
    seqInv (evaluateReq s request).1 := by
  rw [evaluateReq]
  repeat' (first | split | simp only [])
  all_goals first
    | exact h
    | exact seqInv_sendResponse _ _ _ _ _ h

theorem seqInv_launchAfterConstruct (ext : Ext) (s : Session) (request : Jv)
    (dbg0 : DebuggerState) (h : seqInv s) :
    seqInv (launchAfterConstruct ext s request dbg0) := by
  rw [launchAfterConstruct]
  repeat' (first | split | simp only [])
  all_goals first
    | exact seqInv_sendResponse _ _ _ _ _ (seqInv_setDbg _ _ h)
    | exact seqInv_sendResponse _ _ _ _ _ (seqInv_sendEvent _ _ _ (seqInv_setDbg _ _ h))
    | exact seqInv_sendEvent _ _ _ (seqInv_sendEvent _ _ _ (seqInv_sendResponse _ _ _ _ _
        (seqInv_setDbg _ _ (seqInv_sendEvent _ _ _ (seqInv_setDbg _ _ h)))))
    | exact seqInv_sendEvent _ _ _ (seqInv_sendEvent _ _ _ (seqInv_sendResponse _ _ _ _ _
        (seqInv_setDbg _ _ (seqInv_setDbg _ _ h))))

theorem seqInv_launchReq (ext : Ext) (s : Session) (request : Jv) (h : seqInv s) :
    seqInv (launchReq ext s request).1 := by
  rw [launchReq]
  repeat' (first | split | simp only [])
  all_goals first
    | exact h
    | exact seqInv_sendResponse _ _ _ _ _ h
    | exact seqInv_launchAfterConstruct _ _ _ _ h

theorem seqInv_wrap (p : Session × Option String) (h : seqInv p.1) :
    seqInv (wrap p).1 := by
  rcases p with ⟨s2, _ | e⟩ <;> exact h

theorem seqInv_ite (c : Prop) [Decidable c] (a b : Session × Outcome)
    (ha : seqInv a.1) (hb : seqInv b.1) : seqInv (if c then a else b).1 := by
  split
  · exact ha
  · exact hb

set_option maxHeartbeats 2000000 in
theorem seqInv_runStep (ext : Ext) (s : Session) (msg : Jv) (h : seqInv s) :
    seqInv (runStep ext s msg).1 := by
  rcases msg with _ | b | n | st | xs | fields
  case obj =>
    show seqInv (if isReqType (jLookup fields "type") then _ else (s, Outcome.next)).1
    by_cases hT : isReqType (jLookup fields "type") = true
    · rw [if_pos hT]
      refine seqInv_ite _ _ _ (seqInv_initializeReq _ _ h) ?_
      refine seqInv_ite _ _ _ (seqInv_wrap _ (seqInv_launchReq _ _ _ h)) ?_
      refine seqInv_ite _ _ _ (seqInv_wrap _ (seqInv_setBreakpointsReq _ _ _ h)) ?_
      refine seqInv_ite _ _ _ (seqInv_sendResponse _ _ _ _ _ h) ?_
      refine seqInv_ite _ _ _ (seqInv_threadsReq _ _ h) ?_
      refine seqInv_ite _ _ _ (seqInv_continueReq _ _ h) ?_
      refine seqInv_ite _ _ _ (seqInv_nextReq _ _ _ h) ?_
      refine seqInv_ite _ _ _ (seqInv_stepInReq _ _ _ h) ?_
      refine seqInv_ite _ _ _ (seqInv_nextReq _ _ _ h) ?_
      refine seqInv_ite _ _ _ (seqInv_wrap _ (seqInv_stackTraceReq _ _ _ h)) ?_
      refine seqInv_ite _ _ _ (seqInv_scopesReq _ _ h) ?_
      refine seqInv_ite _ _ _ (seqInv_wrap _ (seqInv_variablesReq _ _ _ h)) ?_
      refine seqInv_ite _ _ _ (seqInv_wrap _ (seqInv_evaluateReq _ _ h)) ?_
      refine seqInv_ite _ _ _ (seqInv_sendResponse _ _ _ _ _ h) ?_
      refine seqInv_ite _ _ _ (seqInv_sendResponse _ _ _ _ _ h) ?_
      exact seqInv_sendResponse _ _ _ _ _ h
    · rw [if_neg hT]
      exact h
  all_goals exact h

theorem seqInv_runLoop (ext : Ext) (fuel : Nat) (s : Session) (stream : List Nat)
    (h : seqInv s) : seqInv (runLoop ext fuel s stream).1 := by
  induction fuel generalizing s stream with
  | zero => exact h
  | succ fuel ih =>
    rw [runLoop]
    rcases hr : readMsg stream with _ | ⟨m, rest⟩ | e
    · exact h
    · simp only []
      rcases hs : runStep ext s m with ⟨s2, oc⟩
      have hx := seqInv_runStep ext s m h
      rw [hs] at hx
      rcases oc with _ | _ | e
      · exact ih s2 rest hx
      · exact hx
      · exact hx
    · exact h

theorem hitB_eq (steps : List Step) (bps : List Int) (j : Nat) (h : j < steps.length) :
    hitB steps bps j = decide ((steps.get ⟨j, h⟩).pc ∈ bps) := by
  rw [hitB, List.get?_eq_get h]

/-- Full characterisation of the `continue_` scan: the result stays in
    range, never moves backwards, is pinned at the end, and is either the
    first breakpoint hit strictly after the start or the last index with no
    hit in between. -/
theorem continueFrom_spec (steps : List Step) (bps : List Int) (i : Nat)
    (hi : i < steps.length) :
    i ≤ continueFrom steps bps i ∧ continueFrom steps bps i < steps.length ∧
    (i = steps.length - 1 → continueFrom steps bps i = i) ∧
    ((hitB steps bps (continueFrom steps bps i) = true ∧ i < continueFrom steps bps i ∧
        ∀ j, i < j → j < continueFrom steps bps i → hitB steps bps j = false)
      ∨ (continueFrom steps bps i = steps.length - 1 ∧
        ∀ j, i < j → j < steps.length → hitB steps bps j = false)) := by
  have H : ∀ d i, i < steps.length → steps.length - i ≤ d →
      i ≤ continueFrom steps bps i ∧ continueFrom steps bps i < steps.length ∧
      (i = steps.length - 1 → continueFrom steps bps i = i) ∧
      ((hitB steps bps (continueFrom steps bps i) = true ∧ i < continueFrom steps bps i ∧
          ∀ j, i < j → j < continueFrom steps bps i → hitB steps bps j = false)
        ∨ (continueFrom steps bps i = steps.length - 1 ∧
          ∀ j, i < j → j < steps.length → hitB steps bps j = false)) := by
    intro d
    induction d with
    | zero => intro i hi hle; omega
    | succ d ih =>
      intro i hi hle
      rw [continueFrom]
      split
      · rename_i h1
        split
        · rename_i hhit
          refine ⟨by omega, h1, by omega, .inl ⟨?_, by omega, ?_⟩⟩
          · rw [hitB_eq steps bps (i + 1) h1]
            exact decide_eq_true hhit
          · intro j hj1 hj2
            omega
        · rename_i hmiss
          have hrec := ih (i + 1) h1 (by omega)
          obtain ⟨ha, hb, hc, hd⟩ := hrec
          have hmiss1 : hitB steps bps (i + 1) = false := by
            rw [hitB_eq steps bps (i + 1) h1]
            exact decide_eq_false hmiss
          refine ⟨by omega, hb, by omega, ?_⟩
          rcases hd with ⟨hh, hlt, hmin⟩ | ⟨hend, hnone⟩
          · left
            refine ⟨hh, by omega, ?_⟩
            intro j hj1 hj2
            rcases Nat.lt_or_ge j (i + 2) with hj | hj
            · have : j = i + 1 := by omega
              rw [this]
              exact hmiss1
            · exact hmin j (by omega) hj2
          · right
            refine ⟨hend, ?_⟩
            intro j hj1 hj2
            rcases Nat.lt_or_ge j (i + 2) with hj | hj
            · have : j = i + 1 := by omega
              rw [this]
              exact hmiss1
            · exact hnone j (by omega) hj2
      · rename_i h1
        refine ⟨Nat.le_refl _, hi, fun _ => rfl, .inr ⟨by omega, ?_⟩⟩
        intro j hj1 hj2
        omega
  exact H steps.length i hi (by omega)

/-- C2: across any whole run of the server loop from the initial session,
    the `seq` fields of the outgoing messages (responses and events alike)
    read, in send order, exactly 1, 2, …, N where N is the number of
    messages sent. -/
theorem claim_C2_seq_one_to_n (ext : Ext) (fuel : Nat) (stream : List Nat) :
    seqsOf (runLoop ext fuel initSession stream).1.out =
      (List.range' 1 (runLoop ext fuel initSession stream).1.out.length).map
        (fun n : Nat => some (Jv.num (n : Int))) := by
  obtain ⟨h1, h2⟩ := seqInv_runLoop ext fuel initSession stream seqInv_init
  have hlen : (runLoop ext fuel initSession stream).1.out.length =
      (runLoop ext fuel initSession stream).1.seq - 1 := by
    have hc := congrArg List.length h2
    simpa [seqsOf] using hc
  rw [hlen, h2]

/-- The §8 `continue` scenario trace: 50 steps whose pc equals the index,
    except step 30 whose pc is the breakpoint target 200. -/
def stepsC1 : List Step :=
  (List.range 50).map (fun k =>
    { pc := if k = 30 then (200 : Int) else (k : Int), op := "", stack := [] })

def dbgC1 : DebuggerState :=
  { trace := some stepsC1, current_step := 10, bps := [200], current_function := none,
    function_name := "", contract_address := "0xA" }

def sessC1 : Session := { initSession with debugger := some dbgC1 }

def reqC1 : Jv := .obj [("seq", .num 5), ("type", .str "request"), ("command", .str "continue")]

/-- C1: a `continue` request on a session with a trace of length L and
    current index i in range moves the index to a value r with i ≤ r < L;
    r = i when i is already the last index; and r is either the first index
    strictly after i whose step pc is a registered breakpoint, or the last
    index L-1 when no index strictly after i hits a breakpoint. -/
theorem claim_C1_continue_scan (s : Session) (request : Jv) (dbg : DebuggerState)
    (steps : List Step) (hdbg : s.debugger = some dbg) (htr : dbg.trace = some steps)
    (hi : dbg.current_step < steps.length) :
    ∃ r : Nat,
      (continueReq s request).debugger = some { dbg with current_step := r } ∧
      dbg.current_step ≤ r ∧ r < steps.length ∧
      (dbg.current_step = steps.length - 1 → r = dbg.current_step) ∧
      ((hitB steps dbg.bps r = true ∧ dbg.current_step < r ∧
          ∀ j, dbg.current_step < j → j < r → hitB steps dbg.bps j = false)
        ∨ (r = steps.length - 1 ∧
          ∀ j, dbg.current_step < j → j < steps.length →
            hitB steps dbg.bps j = false)) := by
  refine ⟨continueFrom steps dbg.bps dbg.current_step, ?_,
    continueFrom_spec steps dbg.bps dbg.current_step hi⟩
  rw [continueReq, hdbg]
  simp only []
  rw [htr]
  rfl

/-- The C1 theorem applied to the §8 scenario: trace of 50 steps, breakpoint
    pc 200 placed at step 30, `continue` from index 10. -/
theorem claim_C1_continue_scan_witness :
    sessC1.debugger = some dbgC1 ∧ dbgC1.trace = some stepsC1 ∧
    dbgC1.current_step < stepsC1.length ∧
    (∃ r : Nat,
      (continueReq sessC1 reqC1).debugger = some { dbgC1 with current_step := r } ∧
      dbgC1.current_step ≤ r ∧ r < stepsC1.length ∧
      (dbgC1.current_step = stepsC1.length - 1 → r = dbgC1.current_step) ∧
      ((hitB stepsC1 dbgC1.bps r = true ∧ dbgC1.current_step < r ∧
          ∀ j, dbgC1.current_step < j → j < r → hitB stepsC1 dbgC1.bps j = false)
        ∨ (r = stepsC1.length - 1 ∧
          ∀ j, dbgC1.current_step < j → j < stepsC1.length →
            hitB stepsC1 dbgC1.bps j = false))) :=
  ⟨rfl, rfl, by decide,
    claim_C1_continue_scan sessC1 reqC1 dbgC1 stepsC1 rfl rfl (by decide)⟩

def ftC3 : List FunctionInvocation :=
  [{ name := "dispatcher", entry_step := 0 }, { name := "transfer", entry_step := 12 }]

def stepsC3 : List Step :=
  (List.range 20).map (fun k => { pc := (k : Int), op := "", stack := [] })

def extC3 : Ext :=
  { extDefault with simulate :=
    { raised := none, trace := some stepsC3, ftrace := some ftC3, captured := "" } }

def dbgC3 : DebuggerState :=
  { trace := none, current_step := 0, bps := [], current_function := none,
    function_name := "transfer", contract_address := "0xA" }

def reqC3 : Jv := .obj [("seq", .num 2), ("type", .str "request"), ("command", .str "launch")]

/-- C3: when the launch simulation raises nothing and produces a trace, the
    final debugger starts at the entry step resolved from the function
    trace, with the resolving invocation as current function; and the
    resolution prefers the invocation named like the requested function,
    else invocation 1 when more than one exists (index 0 skipped as
    dispatcher), else the only invocation, else step 0 with no function
    when no function trace is available. -/
theorem claim_C3_launch_entry (ext : Ext) (s : Session) (request : Jv)
    (dbg0 : DebuggerState) (hca : dbg0.contract_address ≠ "")
    (hfn : dbg0.function_name ≠ "") (hraise : ext.simulate.raised = none)
    (steps : List Step) (htrace : ext.simulate.trace = some steps) :
    ((launchAfterConstruct ext s request dbg0).debugger =
      some { dbg0 with
              trace := some steps
              current_step := (resolveEntry ext.simulate.ftrace dbg0.function_name).1
              current_function :=
                (resolveEntry ext.simulate.ftrace dbg0.function_name).2 }) ∧
    (∀ ft fname tf, ft.find? (fun f => f.name = fname) = some tf →
      resolveEntry (some ft) fname = (tf.entry_step, some tf)) ∧
    (∀ f0 f1 rest fname,
      (f0 :: f1 :: rest).find? (fun f => f.name = fname) = none →
      resolveEntry (some (f0 :: f1 :: rest)) fname = (f1.entry_step, some f1)) ∧
    (∀ f0 fname, [f0].find? (fun f => f.name = fname) = none →
      resolveEntry (some [f0]) fname = (f0.entry_step, some f0)) ∧
    (∀ fname, resolveEntry (some []) fname = (0, none)) ∧
    (∀ fname, resolveEntry none fname = (0, none)) := by
  refine ⟨?_, ?_, ?_, ?_, fun _ => rfl, fun _ => rfl⟩
  · rw [launchAfterConstruct, if_neg hca, if_neg hfn]
    simp only []
    rw [hraise]
    simp only []
    rw [htrace]
    rfl
  · intro ft fname tf hfind
    rw [resolveEntry.eq_def]
    simp only [hfind]
  · intro f0 f1 rest fname hfind
    rw [resolveEntry.eq_def]
    simp only [hfind]
  · intro f0 fname hfind
    rw [resolveEntry.eq_def]
    simp only [hfind]

/-- The C3 theorem applied to the §8 scenario: invocations
    dispatcher(entry 0) and transfer(entry 12), requested function
    `transfer`; the final conjunct evaluates the resolution to entry step 12
    with `transfer` as current function. -/
theorem claim_C3_launch_entry_witness :
    dbgC3.contract_address ≠ "" ∧ dbgC3.function_name ≠ "" ∧
    extC3.simulate.raised = none ∧ extC3.simulate.trace = some stepsC3 ∧
    (((launchAfterConstruct extC3 initSession reqC3 dbgC3).debugger =
      some { dbgC3 with
              trace := some stepsC3
              current_step := (resolveEntry extC3.simulate.ftrace dbgC3.function_name).1
              current_function :=
                (resolveEntry extC3.simulate.ftrace dbgC3.function_name).2 }) ∧
    (∀ ft fname tf, ft.find? (fun f => f.name = fname) = some tf →
      resolveEntry (some ft) fname = (tf.entry_step, some tf)) ∧
    (∀ f0 f1 rest fname,
      (f0 :: f1 :: rest).find? (fun f => f.name = fname) = none →
      resolveEntry (some (f0 :: f1 :: rest)) fname = (f1.entry_step, some f1)) ∧
    (∀ f0 fname, [f0].find? (fun f => f.name = fname) = none →
      resolveEntry (some [f0]) fname = (f0.entry_step, some f0)) ∧
    (∀ fname, resolveEntry (some []) fname = (0, none)) ∧
    (∀ fname, resolveEntry none fname = (0, none))) ∧
    resolveEntry extC3.simulate.ftrace dbgC3.function_name =
      (12, some { name := "transfer", entry_step := 12 }) :=
  ⟨by decide, by decide, rfl, rfl,
    claim_C3_launch_entry extC3 initSession reqC3 dbgC3 (by decide) (by decide) rfl
      stepsC3 rfl,
    rfl⟩

theorem verifyLines_shape (ext : Ext) (path : String) :
    ∀ (lvs : List Jv) (dbg dbg3 : DebuggerState) (recs : List Jv),
      verifyLines ext path dbg lvs = (dbg3, recs) →
      ∃ bools : List Bool, bools.length = lvs.length ∧
        recs = List.zipWith
          (fun b lv => Jv.obj [("verified", .bool b), ("line", lv)]) bools lvs := by
  intro lvs
  induction lvs with
  | nil =>
    intro dbg dbg3 recs h
    rw [verifyLines] at h
    injection h with h1 h2
    exact ⟨[], rfl, h2.symm⟩
  | cons lv rest ih =>
    intro dbg dbg3 recs h
    rw [verifyLines] at h
    rcases hb : ext.doBreak (.str (path ++ ":" ++ pyStrJ lv)) dbg with ⟨dbg2, okb⟩
    rw [hb] at h
    simp only [] at h
    rcases hr : verifyLines ext path dbg2 rest with ⟨dbg3x, recsx⟩
    rw [hr] at h
    simp only [] at h
    injection h with h1 h2
    obtain ⟨bools, hlen, hrec⟩ := ih dbg2 dbg3x recsx hr
    refine ⟨okb :: bools, ?_, ?_⟩
    · simp [hlen]
    · rw [← h2, hrec]
      rfl

theorem verifyFuncs_shape (ext : Ext) :
    ∀ (fvs : List Jv) (dbg dbg3 : DebuggerState) (recs : List Jv),
      verifyFuncs ext dbg fvs = (dbg3, recs) →
      ∃ bools : List Bool, bools.length = fvs.length ∧
        recs = List.zipWith
          (fun b fv => Jv.obj [("verified", .bool b), ("functionName", fv)]) bools fvs := by
  intro fvs
  induction fvs with
  | nil =>
    intro dbg dbg3 recs h
    rw [verifyFuncs] at h
    injection h with h1 h2
    exact ⟨[], rfl, h2.symm⟩
  | cons fv rest ih =>
    intro dbg dbg3 recs h
    rw [verifyFuncs] at h
    rcases hb : ext.doBreak fv dbg with ⟨dbg2, okb⟩
    rw [hb] at h
    simp only [] at h
    rcases hr : verifyFuncs ext dbg2 rest with ⟨dbg3x, recsx⟩
    rw [hr] at h
    simp only [] at h
    injection h with h1 h2
    obtain ⟨bools, hlen, hrec⟩ := ih dbg2 dbg3x recsx hr
    refine ⟨okb :: bools, ?_, ?_⟩
    · simp [hlen]
    · rw [← h2, hrec]
      rfl

/-- Reduction of `setBreakpoints` under a well-formed request: arguments
    and source dicts present, breakpoints a list of dicts. -/
theorem setBreakpointsReq_red (ext : Ext) (s : Session) (request : Jv)
    (afs sfs : List (String × Jv)) (xs : List Jv)
    (hargs : jFieldsOr request "arguments" = .ok afs)
    (hsrc : jFieldsOr (.obj afs) "source" = .ok sfs)
    (hbps : jLookup afs "breakpoints" = some (.arr xs))
    (hobjs : allObjs xs = true) :
    setBreakpointsReq ext s request =
      (match (setBps s (dictSet s.breakpoints (bpPath sfs) (linesOf xs))).debugger with
       | none =>
         (sendResponse (setBps s (dictSet s.breakpoints (bpPath sfs) (linesOf xs)))
           request true (some (.obj [("breakpoints", .arr [])])) none, none)
       | some dbg =>
         match verifyLines ext (bpPath sfs) dbg (linesOf xs) with
         | (dbg2, lrecs) =>
           match verifyFuncs ext dbg2 (funcsOf xs) with
           | (dbg3, frecs) =>
             (sendResponse
               (setDbg (setBps s (dictSet s.breakpoints (bpPath sfs) (linesOf xs)))
                 (some dbg3))
               request true (some (.obj [("breakpoints", .arr (lrecs ++ frecs))])) none,
              none)) := by
  rw [setBreakpointsReq, hargs]
  simp only []
  rw [hsrc]
  simp only []
  rw [hbps]
  simp only []
  rw [if_pos hobjs]

/-- C4 (amended): with a live session, a well-formed mixed batch always gets
    a success response whose record list is all line records (one per line
    descriptor, in their order) followed by all function-name records (one
    per function descriptor, in their order), each independently verified
    true or false; nothing crashes. -/
theorem claim_C4_batch_records (ext : Ext) (s : Session) (request : Jv)
    (afs sfs : List (String × Jv)) (xs : List Jv) (dbg : DebuggerState)
    (hargs : jFieldsOr request "arguments" = .ok afs)
    (hsrc : jFieldsOr (.obj afs) "source" = .ok sfs)
    (hbps : jLookup afs "breakpoints" = some (.arr xs))
    (hobjs : allObjs xs = true)
    (hdbg : s.debugger = some dbg) :
    (setBreakpointsReq ext s request).2 = none ∧
    ∃ lbools fbools : List Bool,
      lbools.length = (linesOf xs).length ∧ fbools.length = (funcsOf xs).length ∧
      (setBreakpointsReq ext s request).1.out = s.out ++
        [respMsg s.seq request true (some (.obj [("breakpoints", .arr (
          (List.zipWith (fun b lv => Jv.obj [("verified", .bool b), ("line", lv)])
            lbools (linesOf xs)) ++
          (List.zipWith (fun b fv => Jv.obj [("verified", .bool b), ("functionName", fv)])
            fbools (funcsOf xs)))) ])) none] := by
  have hred := setBreakpointsReq_red ext s request afs sfs xs hargs hsrc hbps hobjs
  have hsd : (setBps s (dictSet s.breakpoints (bpPath sfs) (linesOf xs))).debugger =
      some dbg := hdbg
  rw [hsd] at hred
  simp only [] at hred
  rcases hvl : verifyLines ext (bpPath sfs) dbg (linesOf xs) with ⟨dbg2, lrecs⟩
  rw [hvl] at hred
  rcases hvf : verifyFuncs ext dbg2 (funcsOf xs) with ⟨dbg3, frecs⟩
  rw [hvf] at hred
  simp only [] at hred
  obtain ⟨lbools, hllen, hlrec⟩ := verifyLines_shape ext (bpPath sfs) _ _ _ _ hvl
  obtain ⟨fbools, hflen, hfrec⟩ := verifyFuncs_shape ext _ _ _ _ hvf
  refine ⟨by rw [hred], lbools, fbools, hllen, hflen, ?_⟩
  rw [hred, ← hlrec, ← hfrec]
  rfl

def reqC4 : Jv := .obj [("seq", .num 1), ("type", .str "request"),
  ("command", .str "setBreakpoints"),
  ("arguments", .obj [
    ("source", .obj [("path", .str "a.sol")]),
    ("breakpoints", .arr [
      .obj [("functionName", .str "f")],
      .obj [("line", .num 3)]])])]

def dbgC4 : DebuggerState :=
  { trace := none, current_step := 0, bps := [], current_function := none,
    function_name := "", contract_address := "" }

def sessC4 : Session := { initSession with debugger := some dbgC4 }

/-- A mixed batch listing the function descriptor first and the line
    descriptor second is answered with the line record first: the records
    come back grouped lines-then-functions, not in input order. -/
theorem claim_C4_counterexample :
    (setBreakpointsReq extDefault sessC4 reqC4).1.out.map (fun m => jGet m "body") =
      [some (.obj [("breakpoints", .arr [
        .obj [("verified", .bool true), ("line", .num 3)],
        .obj [("verified", .bool true), ("functionName", .str "f")]])])] ∧
    Jv.arr [.obj [("verified", .bool true), ("line", .num 3)],
        .obj [("verified", .bool true), ("functionName", .str "f")]] ≠
      Jv.arr [.obj [("verified", .bool true), ("functionName", .str "f")],
        .obj [("verified", .bool true), ("line", .num 3)]] := by
  refine ⟨rfl, ?_⟩
  simp

/-- The C4 theorem applied to the counterexample request: one function and
    one line descriptor against a live session. -/
theorem claim_C4_batch_records_witness :
    sessC4.debugger = some dbgC4 ∧
    ((setBreakpointsReq extDefault sessC4 reqC4).2 = none ∧
    ∃ lbools fbools : List Bool,
      lbools.length = (linesOf [Jv.obj [("functionName", .str "f")],
        Jv.obj [("line", .num 3)]]).length ∧
      fbools.length = (funcsOf [Jv.obj [("functionName", .str "f")],
        Jv.obj [("line", .num 3)]]).length ∧
      (setBreakpointsReq extDefault sessC4 reqC4).1.out = sessC4.out ++
        [respMsg sessC4.seq reqC4 true (some (.obj [("breakpoints", .arr (
          (List.zipWith (fun b lv => Jv.obj [("verified", .bool b), ("line", lv)])
            lbools (linesOf [Jv.obj [("functionName", .str "f")],
              Jv.obj [("line", .num 3)]])) ++
          (List.zipWith (fun b fv => Jv.obj [("verified", .bool b), ("functionName", fv)])
            fbools (funcsOf [Jv.obj [("functionName", .str "f")],
              Jv.obj [("line", .num 3)]])))) ])) none]) :=
  ⟨rfl, claim_C4_batch_records extDefault sessC4 reqC4
    [("source", .obj [("path", .str "a.sol")]),
     ("breakpoints", .arr [.obj [("functionName", .str "f")], .obj [("line", .num 3)]])]
    [("path", .str "a.sol")]
    [Jv.obj [("functionName", .str "f")], Jv.obj [("line", .num 3)]]
    dbgC4 rfl rfl rfl rfl rfl⟩

/-- C5 (amended): with no active session, a well-formed batch still replaces
    the stored line list for the path (full replace) and is answered with a
    success response whose verification list is empty — the descriptors are
    not reported back unverified. -/
theorem claim_C5_no_session (ext : Ext) (s : Session) (request : Jv)
    (afs sfs : List (String × Jv)) (xs : List Jv)
    (hargs : jFieldsOr request "arguments" = .ok afs)
    (hsrc : jFieldsOr (.obj afs) "source" = .ok sfs)
    (hbps : jLookup afs "breakpoints" = some (.arr xs))
    (hobjs : allObjs xs = true)
    (hdbg : s.debugger = none) :
    (setBreakpointsReq ext s request).2 = none ∧
    (setBreakpointsReq ext s request).1.breakpoints =
      dictSet s.breakpoints (bpPath sfs) (linesOf xs) ∧
    (setBreakpointsReq ext s request).1.out = s.out ++
      [respMsg s.seq request true (some (.obj [("breakpoints", .arr [])])) none] := by
  have hred := setBreakpointsReq_red ext s request afs sfs xs hargs hsrc hbps hobjs
  have hsd : (setBps s (dictSet s.breakpoints (bpPath sfs) (linesOf xs))).debugger =
      none := hdbg
  rw [hsd] at hred
  simp only [] at hred
  exact ⟨by rw [hred], by rw [hred]; rfl, by rw [hred]; rfl⟩

def reqC5 : Jv := .obj [("seq", .num 1), ("type", .str "request"),
  ("command", .str "setBreakpoints"),
  ("arguments", .obj [
    ("source", .obj [("path", .str "a.sol")]),
    ("breakpoints", .arr [.obj [("line", .num 7)]])])]

/-- A single line descriptor sent before any session exists is stored, yet
    the response's verification list is empty instead of holding one
    unverified record per descriptor. -/
theorem claim_C5_counterexample :
    (setBreakpointsReq extDefault initSession reqC5).1.out.map (fun m => jGet m "body") =
      [some (.obj [("breakpoints", .arr [])])] ∧
    (setBreakpointsReq extDefault initSession reqC5).1.breakpoints =
      [("a.sol", [.num 7])] ∧
    Jv.arr [] ≠ Jv.arr [.obj [("verified", .bool false), ("line", .num 7)]] := by
  refine ⟨rfl, rfl, ?_⟩
  simp

/-- The C5 theorem applied to the counterexample request: one line
    descriptor, no debugger. -/
theorem claim_C5_no_session_witness :
    initSession.debugger = none ∧
    ((setBreakpointsReq extDefault initSession reqC5).2 = none ∧
    (setBreakpointsReq extDefault initSession reqC5).1.breakpoints =
      dictSet initSession.breakpoints (bpPath [("path", .str "a.sol")])
        (linesOf [Jv.obj [("line", .num 7)]]) ∧
    (setBreakpointsReq extDefault initSession reqC5).1.out = initSession.out ++
      [respMsg initSession.seq reqC5 true
        (some (.obj [("breakpoints", .arr [])])) none]) :=
  ⟨rfl, claim_C5_no_session extDefault initSession reqC5
    [("source", .obj [("path", .str "a.sol")]),
     ("breakpoints", .arr [.obj [("line", .num 7)]])]
    [("path", .str "a.sol")]
    [Jv.obj [("line", .num 7)]]
    rfl rfl rfl rfl rfl⟩

/-- C6: framing round-trip. Writing any message with `_send` and reading
    the produced bytes back with `_read` yields an equal message with the
    remainder of the stream untouched, and the Content-Length header parsed
    back is exactly the UTF-8 byte length of the serialized JSON body. -/
theorem claim_C6_framing_roundtrip (msg : Jv) (extra : List Nat) :
    readMsg (sendBytes msg ++ extra) = ReadRes.msg msg extra ∧
    readHeaders none (sendBytes msg ++ extra) =
      .ok (some ((utf8Enc (dumps msg)).length : Int), utf8Enc (dumps msg) ++ extra) :=
  ⟨readMsg_sendBytes msg extra, readHeaders_sendBytes msg extra⟩

/-- C7: with a live trace, `evaluate` answers the exact form
    `stack[<int>]` with the hex-formatted indexed stack element as a
    success; any other expression with the success `"n/a"`; a bad integer
    literal, an out-of-range trace index or an out-of-range stack index
    with a failure carrying the exception's message. -/
theorem claim_C7_evaluate (s : Session) (request : Jv) (afs : List (String × Jv))
    (expr : String) (dbg : DebuggerState) (steps : List Step)
    (hargs : jFieldsRaw request "arguments" = .ok afs)
    (hexpr : (jLookup afs "expression").getD (.str "") = .str expr)
    (hdbg : s.debugger = some dbg) (htr : dbg.trace = some steps) :
    (evaluateReq s request).2 = none ∧
    (evaluateReq s request).1.out = s.out ++
      [match evalExprResult s.debugger expr with
       | .ok r => respMsg s.seq request true
           (some (.obj [("result", .str r), ("variablesReference", .num 0)])) none
       | .error e => respMsg s.seq request false none (some e)] ∧
    (("stack[".data.isPrefixOf expr.data && "]".data.isSuffixOf expr.data) = false →
      evalExprResult s.debugger expr = .ok "n/a") ∧
    (∀ idx step v,
      ("stack[".data.isPrefixOf expr.data && "]".data.isSuffixOf expr.data) = true →
      pyInt ((expr.data.drop 6).dropLast) = some idx →
      steps.get? dbg.current_step = some step →
      pyIndex step.stack idx = .ok v →
      evalExprResult s.debugger expr = .ok (pyHex v)) ∧
    (("stack[".data.isPrefixOf expr.data && "]".data.isSuffixOf expr.data) = true →
      pyInt ((expr.data.drop 6).dropLast) = none →
      evalExprResult s.debugger expr = .error
        ("invalid literal for int() with base 10: '" ++
          String.mk ((expr.data.drop 6).dropLast) ++ "'")) ∧
    (∀ idx,
      ("stack[".data.isPrefixOf expr.data && "]".data.isSuffixOf expr.data) = true →
      pyInt ((expr.data.drop 6).dropLast) = some idx →
      steps.get? dbg.current_step = none →
      evalExprResult s.debugger expr = .error "list index out of range") ∧
    (∀ idx step e,
      ("stack[".data.isPrefixOf expr.data && "]".data.isSuffixOf expr.data) = true →
      pyInt ((expr.data.drop 6).dropLast) = some idx →
      steps.get? dbg.current_step = some step →
      pyIndex step.stack idx = .error e →
      evalExprResult s.debugger expr = .error e) := by
  have hM : (match s.debugger with
      | some d => d.trace.isSome
      | none => false) = true := by
    rw [hdbg]
    simp only []
    rw [htr]
    rfl
  refine ⟨?_, ?_, ?_, ?_, ?_, ?_, ?_⟩
  · rw [evaluateReq, hargs]
    simp only []
    rw [hexpr]
    simp only []
    rcases evalExprResult s.debugger expr with e | r <;> rfl
  · rw [evaluateReq, hargs]
    simp only []
    rw [hexpr]
    simp only []
    rcases evalExprResult s.debugger expr with e | r <;> rfl
  · intro h
    rw [evalExprResult.eq_def, h]
    rfl
  · intro idx step v hbr hint hstep hidx
    have hcond : (("stack[".data.isPrefixOf expr.data &&
        "]".data.isSuffixOf expr.data) &&
        (match s.debugger with
         | some d => d.trace.isSome
         | none => false)) = true := by rw [hbr, hM]; rfl
    rw [evalExprResult.eq_def, if_pos hcond]
    simp only [hint, hdbg, htr, hstep, hidx]
  · intro hbr hint
    have hcond : (("stack[".data.isPrefixOf expr.data &&
        "]".data.isSuffixOf expr.data) &&
        (match s.debugger with
         | some d => d.trace.isSome
         | none => false)) = true := by rw [hbr, hM]; rfl
    rw [evalExprResult.eq_def, if_pos hcond]
    simp only [hint]
  · intro idx hbr hint hstep
    have hcond : (("stack[".data.isPrefixOf expr.data &&
        "]".data.isSuffixOf expr.data) &&
        (match s.debugger with
         | some d => d.trace.isSome
         | none => false)) = true := by rw [hbr, hM]; rfl
    rw [evalExprResult.eq_def, if_pos hcond]
    simp only [hint, hdbg, htr, hstep]
  · intro idx step e hbr hint hstep hidx
    have hcond : (("stack[".data.isPrefixOf expr.data &&
        "]".data.isSuffixOf expr.data) &&
        (match s.debugger with
         | some d => d.trace.isSome
         | none => false)) = true := by rw [hbr, hM]; rfl
    rw [evalExprResult.eq_def, if_pos hcond]
    simp only [hint, hdbg, htr, hstep, hidx]

theorem natHexRev_300 : natHexRev 300 = [12, 2, 1] := by
  have h1 : natHexRev 1 = [1] := by
    rw [natHexRev]
    norm_num
    rw [natHexRev]
    norm_num
  have h18 : natHexRev 18 = [2, 1] := by
    rw [natHexRev]
    norm_num
    exact h1
  rw [natHexRev]
  norm_num
  exact h18

theorem pyHex_300 : pyHex 300 = "0x12c" := by
  rw [pyHex, if_neg (by omega)]
  have hab : (300 : Int).natAbs = 300 := rfl
  rw [hab, natHexChs, if_neg (by omega), natHexRev_300]
  rfl

def dbgC7 : DebuggerState :=
  { trace := some [{ pc := 0, op := "PUSH1", stack := [1, 2, 300] }], current_step := 0,
    bps := [], current_function := none, function_name := "f", contract_address := "0xA" }

def sessC7 : Session := { initSession with debugger := some dbgC7 }

def reqC7 : Jv := .obj [("seq", .num 9), ("type", .str "request"),
  ("command", .str "evaluate"),
  ("arguments", .obj [("expression", .str "stack[2]")])]

/-- The C7 theorem applied to the §8 scenario: `stack[2]` over the stack
    `[1, 2, 300]`; the final conjuncts evaluate the result to `"0x12c"`. -/
theorem claim_C7_evaluate_witness :
    jFieldsRaw reqC7 "arguments" = .ok [("expression", .str "stack[2]")] ∧
    sessC7.debugger = some dbgC7 ∧
    ((evaluateReq sessC7 reqC7).2 = none ∧
     (evaluateReq sessC7 reqC7).1.out = sessC7.out ++
      [match evalExprResult sessC7.debugger "stack[2]" with
       | .ok r => respMsg sessC7.seq reqC7 true
           (some (.obj [("result", .str r), ("variablesReference", .num 0)])) none
       | .error e => respMsg sessC7.seq reqC7 false none (some e)] ∧
    (("stack[".data.isPrefixOf "stack[2]".data &&
        "]".data.isSuffixOf "stack[2]".data) = false →
      evalExprResult sessC7.debugger "stack[2]" = .ok "n/a") ∧
    (∀ idx step v,
      ("stack[".data.isPrefixOf "stack[2]".data &&
        "]".data.isSuffixOf "stack[2]".data) = true →
      pyInt (("stack[2]".data.drop 6).dropLast) = some idx →
      (dbgC7.trace.getD []).get? dbgC7.current_step = some step →
      pyIndex step.stack idx = .ok v →
      evalExprResult sessC7.debugger "stack[2]" = .ok (pyHex v)) ∧
    (("stack[".data.isPrefixOf "stack[2]".data &&
        "]".data.isSuffixOf "stack[2]".data) = true →
      pyInt (("stack[2]".data.drop 6).dropLast) = none →
      evalExprResult sessC7.debugger "stack[2]" = .error
        ("invalid literal for int() with base 10: '" ++
          String.mk (("stack[2]".data.drop 6).dropLast) ++ "'")) ∧
    (∀ idx,
      ("stack[".data.isPrefixOf "stack[2]".data &&
        "]".data.isSuffixOf "stack[2]".data) = true →
      pyInt (("stack[2]".data.drop 6).dropLast) = some idx →
      (dbgC7.trace.getD []).get? dbgC7.current_step = none →
      evalExprResult sessC7.debugger "stack[2]" = .error "list index out of range") ∧
    (∀ idx step e,
      ("stack[".data.isPrefixOf "stack[2]".data &&
        "]".data.isSuffixOf "stack[2]".data) = true →
      pyInt (("stack[2]".data.drop 6).dropLast) = some idx →
      (dbgC7.trace.getD []).get? dbgC7.current_step = some step →
      pyIndex step.stack idx = .error e →
      evalExprResult sessC7.debugger "stack[2]" = .error e)) ∧
    evalExprResult sessC7.debugger "stack[2]" = .ok "0x12c" ∧
    pyHex 300 = "0x12c" := by
  refine ⟨rfl, rfl,
    claim_C7_evaluate sessC7 reqC7 [("expression", .str "stack[2]")] "stack[2]" dbgC7
      [{ pc := 0, op := "PUSH1", stack := [1, 2, 300] }] rfl rfl rfl rfl,
    ?_, pyHex_300⟩
  show Except.ok (pyHex 300) = Except.ok "0x12c"
  rw [pyHex_300]

/-! ## C8: transport exhaustion and truncated bodies -/

/-- A framed message whose declared length 10 exceeds the 3 body bytes
    actually present (`abc`). -/
def truncC8 : List Nat := "Content-Length: 10\r\n\r\nabc".data.map Char.toNat

/-- A header block with no Content-Length header and nothing after it. -/
def noclC8 : List Nat := "Foo: bar\r\n\r\n".data.map Char.toNat

theorem readHeaders_truncC8 :
    readHeaders none truncC8 = .ok (some 10, [97, 98, 99]) := by
  rw [readHeaders]
  rw [dif_neg (by decide)]
  rw [if_neg (by decide)]
  rw [if_pos (by decide)]
  have hv : pyIntBytes (splitColon (readLine truncC8).1).2 = some 10 := by decide
  rw [hv]
  simp only []
  have hr : (readLine truncC8).2 = [13, 10, 97, 98, 99] := by decide
  rw [hr]
  rw [readHeaders]
  rw [dif_neg (by decide)]
  rw [if_pos (by decide)]
  rfl

theorem readHeaders_noclC8 : readHeaders none noclC8 = .ok (none, []) := by
  rw [readHeaders]
  rw [dif_neg (by decide)]
  rw [if_neg (by decide)]
  rw [if_neg (by decide)]
  have hr : (readLine noclC8).2 = [13, 10] := by decide
  rw [hr]
  rw [readHeaders]
  rw [dif_neg (by decide)]
  rw [if_pos (by decide)]
  rfl

/-- A stream that ends mid-body after a valid Content-Length header is not
    treated as end-of-stream: the truncated body reaches the JSON parser and
    the uncaught decode error kills the loop instead of ending it cleanly. -/
theorem claim_C8_counterexample :
    readMsg truncC8 = ReadRes.err "JSONDecodeError" ∧
    runLoop extDefault 1 initSession truncC8 = (initSession, some "JSONDecodeError") := by
  have h1 : readMsg truncC8 = ReadRes.err "JSONDecodeError" := by
    rw [readMsg, readHeaders_truncC8]
    rfl
  refine ⟨h1, ?_⟩
  rw [runLoop, h1]

/-- C8 (amended): a header block without Content-Length is read as
    end-of-stream and ends the loop cleanly and silently; but a stream
    ending mid-body after a valid Content-Length header hands the truncated
    body to the JSON parser, and a parse failure crashes the loop with the
    decode error instead of ending it cleanly. -/
theorem claim_C8_loop_termination (ext : Ext) (s : Session) (fuel : Nat)
    (bs rest : List Nat) (hnc : readHeaders none bs = .ok (none, rest))
    (bs2 rest2 : List Nat) (n : Int) (chars : List Char)
    (hcl : readHeaders none bs2 = .ok (some n, rest2)) (hn : 0 ≤ n)
    (hdec : utf8Dec (rest2.take n.toNat) = some chars)
    (hfail : loadsChars chars = none) :
    (readMsg bs = ReadRes.eof ∧ runLoop ext (fuel + 1) s bs = (s, none)) ∧
    (readMsg bs2 = ReadRes.err "JSONDecodeError" ∧
     runLoop ext (fuel + 1) s bs2 = (s, some "JSONDecodeError")) := by
  have h1 : readMsg bs = ReadRes.eof := by
    rw [readMsg, hnc]
  have h2 : readMsg bs2 = ReadRes.err "JSONDecodeError" := by
    rw [readMsg, hcl]
    simp only []
    rw [if_neg (by omega)]
    rw [hdec]
    simp only []
    rw [hfail]
  refine ⟨⟨h1, ?_⟩, h2, ?_⟩
  · rw [runLoop, h1]
  · rw [runLoop, h2]

/-- The C8 theorem applied to the two concrete streams: a `Foo: bar` header
    block with no Content-Length, and a `Content-Length: 10` frame whose
    body holds only the 3 bytes `abc`. -/
theorem claim_C8_loop_termination_witness :
    readHeaders none noclC8 = .ok (none, []) ∧
    readHeaders none truncC8 = .ok (some 10, [97, 98, 99]) ∧
    (0 : Int) ≤ 10 ∧
    utf8Dec ([97, 98, 99].take (10 : Int).toNat) = some ['a', 'b', 'c'] ∧
    loadsChars ['a', 'b', 'c'] = none ∧
    ((readMsg noclC8 = ReadRes.eof ∧
      runLoop extDefault 3 initSession noclC8 = (initSession, none)) ∧
     (readMsg truncC8 = ReadRes.err "JSONDecodeError" ∧
      runLoop extDefault 3 initSession truncC8 = (initSession, some "JSONDecodeError"))) :=
  ⟨readHeaders_noclC8, readHeaders_truncC8, by decide, rfl, rfl,
   claim_C8_loop_termination extDefault initSession 2 noclC8 [] readHeaders_noclC8
     truncC8 [97, 98, 99] 10 ['a', 'b', 'c'] readHeaders_truncC8 (by decide) rfl rfl⟩

/-! ## C9: stackTrace without a trace -/

def reqC9 : Jv := .obj [("seq", .num 4), ("type", .str "request"),
  ("command", .str "stackTrace")]

/-- The no-trace `stackTrace` response body holds an empty `stackFrames`
    list but no `totalFrames` key at all, in particular not `totalFrames`
    equal to 0. -/
theorem claim_C9_counterexample :
    (stackTraceReq extDefault initSession reqC9).1.out.map (fun m => jGet m "body") =
      [some (.obj [("stackFrames", .arr [])])] ∧
    jGet (.obj [("stackFrames", .arr [])]) "totalFrames" = none ∧
    (Jv.obj [("stackFrames", .arr [])]) ≠
      .obj [("stackFrames", .arr []), ("totalFrames", .num 0)] := by
  refine ⟨rfl, rfl, ?_⟩
  simp

/-- C9 (amended): with no debugger or no trace, `stackTrace` answers with a
    success whose body is exactly an empty `stackFrames` list — and that
    body carries no `totalFrames` key — rather than failing. -/
theorem claim_C9_no_trace (ext : Ext) (s : Session) (request : Jv)
    (h : s.debugger = none ∨ ∃ dbg, s.debugger = some dbg ∧ dbg.trace = none) :
    (stackTraceReq ext s request).2 = none ∧
    (stackTraceReq ext s request).1.out = s.out ++
      [respMsg s.seq request true (some (.obj [("stackFrames", .arr [])])) none] ∧
    jGet (.obj [("stackFrames", .arr [])]) "totalFrames" = none := by
  rcases h with h | ⟨dbg, h, htr⟩
  · rw [stackTraceReq, h]
    exact ⟨rfl, rfl, rfl⟩
  · rw [stackTraceReq, h]
    simp only []
    rw [htr]
    exact ⟨rfl, rfl, rfl⟩

/-- The C9 theorem applied to the initial session, which has no debugger. -/
theorem claim_C9_no_trace_witness :
    (initSession.debugger = none ∨
      ∃ dbg, initSession.debugger = some dbg ∧ dbg.trace = none) ∧
    ((stackTraceReq extDefault initSession reqC9).2 = none ∧
     (stackTraceReq extDefault initSession reqC9).1.out = initSession.out ++
      [respMsg initSession.seq reqC9 true
        (some (.obj [("stackFrames", .arr [])])) none] ∧
     jGet (.obj [("stackFrames", .arr [])]) "totalFrames" = none) :=
  ⟨.inl rfl, claim_C9_no_trace extDefault initSession reqC9 (.inl rfl)⟩

/-! ## C10: non-request messages are skipped -/

/-- C10: a framed dict whose `type` is not `"request"` is skipped silently:
    the session (counter, output, debugger, breakpoints) is unchanged, the
    iteration outcome is to keep looping, and on a framed stream the loop
    simply moves on to the rest of the stream. -/
theorem claim_C10_skip_non_request (ext : Ext) (s : Session)
    (fields : List (String × Jv)) (h : isReqType (jLookup fields "type") = false) :
    runStep ext s (.obj fields) = (s, Outcome.next) ∧
    ∀ rest fuel, runLoop ext (fuel + 1) s (sendBytes (.obj fields) ++ rest) =
      runLoop ext fuel s rest := by
  have hstep : runStep ext s (.obj fields) = (s, Outcome.next) := by
    rw [runStep.eq_def]
    simp only []
    rw [if_neg (by rw [h]; exact Bool.false_ne_true)]
  refine ⟨hstep, ?_⟩
  intro rest fuel
  rw [runLoop, readMsg_sendBytes]
  simp only []
  rw [hstep]

/-- The C10 theorem applied to a framed `event`-typed message. -/
theorem claim_C10_skip_non_request_witness :
    isReqType (jLookup [("type", Jv.str "event")] "type") = false ∧
    (runStep extDefault initSession (.obj [("type", .str "event")]) =
      (initSession, Outcome.next) ∧
     ∀ rest fuel,
       runLoop extDefault (fuel + 1) initSession
         (sendBytes (.obj [("type", .str "event")]) ++ rest) =
       runLoop extDefault fuel initSession rest) :=
  ⟨rfl, claim_C10_skip_non_request extDefault initSession [("type", .str "event")] rfl⟩

end WalnutDAP
